import Mathlib

set_option maxRecDepth 4000

/-!
Verification development for the frontage-propagation, subdivision and
electrical-node-sharing decision engine of a cadastral mapping application.

The JavaScript source is shallowly embedded: pure decision logic becomes Lean
functions, the module-level mutable state becomes explicit state records, and
the external GIS geometry engine (distance, containment, buffering, cutting,
nearest-coordinate) is modelled as a record of oracle functions supplied to
each operation, exactly at the call boundaries where the source invokes it.
Coordinates and distances are rational numbers.
-/

/-! ### JavaScript value model

Attribute values coming from feature services are JavaScript values compared
with strict equality and combined with the short-circuiting truthiness-based
logical-or operator. -/

inductive JSValue where
  | undef : JSValue
  | nullv : JSValue
  | num : ℚ → JSValue
  | str : String → JSValue
deriving DecidableEq, Repr

/-- Truthiness of a JavaScript value: undefined, null, 0 and the empty string
are falsy (NaN is not modelled; the attribute values in play are field values
or absent fields). -/
def JSValue.truthy : JSValue → Bool
  | .undef => false
  | .nullv => false
  | .num n => n != 0
  | .str s => s != ""

/-- The JavaScript binary logical-or: returns the left operand when it is
truthy, otherwise the right operand. -/
def jsOr (a b : JSValue) : JSValue :=
  if a.truthy then a else b

/-- String conversion of a JavaScript value as produced by toString on id
values; integral numbers print without a decimal part. Non-integral numeric
ids do not occur in the data and are represented by the rational printer. -/
def JSValue.jsToString : JSValue → String
  | .undef => "undefined"
  | .nullv => "null"
  | .num n => if n.den == 1 then toString n.num else toString n
  | .str s => s

/-! ### Parcel identifier resolution

Source: `polygonGraphic.attributes.objectid || polygonGraphic.attributes.__OBJECTID
|| polygonGraphic.attributes.OBJECTID` (electrical-infrastructure and cadastral
highlight modules), with a further `|| 'Unknown'` fallback in the subdivision
completion module. Lean identifiers cannot repeat the same name in different
cases inside one structure, so the three historical field names objectid,
__OBJECTID and OBJECTID keep their spelling as distinct fields. -/

structure ParcelAttrs where
  objectid : JSValue
  __OBJECTID : JSValue
  OBJECTID : JSValue
deriving DecidableEq, Repr

/-- Embedding of the id fallback chain used when assigning electrical nodes
and when highlighting frontage. -/
def resolvePolygonId (a : ParcelAttrs) : JSValue :=
  jsOr a.objectid (jsOr a.__OBJECTID a.OBJECTID)

/-- Embedding of the id fallback chain used in subdivision completion, which
appends a final string fallback. -/
def resolvePolygonIdOrUnknown (a : ParcelAttrs) : JSValue :=
  jsOr (resolvePolygonId a) (.str "Unknown")

/-! ### Boundary-line classification (cadastral-features module) -/

structure LineAttrs where
  usage_code : JSValue
  render_normal : JSValue
deriving DecidableEq, Repr

/-- The frontage test shared by the valid-line labelling and the frontage
filter: usage_code strictly equals the number 1 or the strings "1-Y"/"1-N",
or render_normal strictly equals "1-Y"/"1-N". -/
def isFrontageLine (a : LineAttrs) : Bool :=
  a.usage_code == .num 1 || a.usage_code == .str "1-Y" || a.usage_code == .str "1-N"
    || a.render_normal == .str "1-Y" || a.render_normal == .str "1-N"

/-- Embedding of the usage label assignment: first the frontage test, then
interior on usage_code strictly equal to the number 2, otherwise other. -/
def usageLabel (a : LineAttrs) : String :=
  if isFrontageLine a then "FRONTAGE"
  else if a.usage_code == .num 2 then "INTERIOR"
  else "OTHER"

/-! ### Geometry primitives of the embedding -/

structure GeomPoint where
  x : ℚ
  y : ℚ
deriving DecidableEq, Repr

/-- One polygon edge. The source objects carry fields named start and end;
end is a Lean keyword, so the second endpoint is the field stop. -/
structure PolyEdge where
  start : GeomPoint
  stop : GeomPoint
deriving DecidableEq, Repr

/-! ### Endpoint pre-filter for queried boundary lines -/

structure LineFeature where
  path : List GeomPoint
  attrs : LineAttrs
deriving DecidableEq, Repr

def ENDPOINT_DISTANCE_THRESHOLD : ℚ := 3 / 2

/-- Embedding of the valid-line filter predicate: a queried line qualifies
only when its path has at least two points and the distances from its first
and last path points to the selected polygon geometry are both at most the
1.5 meter threshold. The distance oracle stands for the geometry engine's
point-to-polygon distance for the currently selected parcel. -/
def validLine (distToPolygon : GeomPoint → ℚ) (lf : LineFeature) : Bool :=
  if lf.path.length < 2 then false
  else
    match lf.path.head?, lf.path.getLast? with
    | some s, some e =>
        decide (distToPolygon s ≤ ENDPOINT_DISTANCE_THRESHOLD)
          && decide (distToPolygon e ≤ ENDPOINT_DISTANCE_THRESHOLD)
    | _, _ => false

/-- Embedding of the frontage-line selection in the cadastral highlight: the
endpoint filter runs first, and the frontage filter is applied only to the
lines that survived it. -/
def frontageLinesOf (distToPolygon : GeomPoint → ℚ) (features : List LineFeature) :
    List LineFeature :=
  (features.filter (validLine distToPolygon)).filter (fun line => isFrontageLine line.attrs)

/-! ### Edge-proximity matcher (subdivision-layer module) -/

def edgeDistanceThreshold : ℚ := 2

/-- Embedding of the matcher deciding whether a sub-polygon edge lies along a
parent frontage line: the distances from both edge endpoints to the frontage
geometry must be at most the 2 meter tolerance; no midpoint is checked. The
distance oracle stands for the geometry engine's point-to-polyline distance. -/
def edgeMatchesFrontageLine {FGeom : Type} (distance : GeomPoint → FGeom → ℚ)
    (edge : PolyEdge) (frontageLineGeometry : FGeom) : Bool :=
  let startDistance := distance edge.start frontageLineGeometry
  let endDistance := distance edge.stop frontageLineGeometry
  decide (startDistance ≤ edgeDistanceThreshold) && decide (endDistance ≤ edgeDistanceThreshold)

/-! ### Theorems: classification (C3) -/

/-- C3. Every boundary line is labelled with exactly one of FRONTAGE, INTERIOR
and OTHER; the label is FRONTAGE precisely when usage_code is 1, "1-Y" or
"1-N" or render_normal is "1-Y" or "1-N"; it is INTERIOR precisely when
usage_code is 2 and the frontage test fails; otherwise it is OTHER. In
particular usage_code 1 and render_normal "1-Y" each force FRONTAGE. -/
theorem usageLabel_classification :
    (∀ a : LineAttrs,
      (usageLabel a = "FRONTAGE" ∨ usageLabel a = "INTERIOR" ∨ usageLabel a = "OTHER")
      ∧ (usageLabel a = "FRONTAGE" ↔
          (a.usage_code = .num 1 ∨ a.usage_code = .str "1-Y" ∨ a.usage_code = .str "1-N"
            ∨ a.render_normal = .str "1-Y" ∨ a.render_normal = .str "1-N"))
      ∧ (usageLabel a = "INTERIOR" ↔ (a.usage_code = .num 2 ∧ ¬ isFrontageLine a = true))
      ∧ (usageLabel a = "OTHER" ↔
          (¬ isFrontageLine a = true ∧ a.usage_code ≠ .num 2)))
    ∧ (∀ r, usageLabel { usage_code := .num 1, render_normal := r } = "FRONTAGE")
    ∧ (∀ u, usageLabel { usage_code := u, render_normal := .str "1-Y" } = "FRONTAGE") := by
  refine ⟨fun a => ?_, fun r => ?_, fun u => ?_⟩
  · have hfront : isFrontageLine a = true ↔
        (a.usage_code = .num 1 ∨ a.usage_code = .str "1-Y" ∨ a.usage_code = .str "1-N"
          ∨ a.render_normal = .str "1-Y" ∨ a.render_normal = .str "1-N") := by
      simp only [isFrontageLine, Bool.or_eq_true, beq_iff_eq]
      tauto
    constructor
    · unfold usageLabel
      split
      · exact Or.inl rfl
      · split
        · exact Or.inr (Or.inl rfl)
        · exact Or.inr (Or.inr rfl)
    refine ⟨?_, ?_, ?_⟩
    · rw [← hfront]
      unfold usageLabel
      split
      · simp_all
      · split <;> simp_all
    · unfold usageLabel
      split
      · simp_all
      · split
        · simp_all
        · simp_all
    · unfold usageLabel
      split
      · simp_all
      · split
        · simp_all
        · simp_all
  · simp [usageLabel, isFrontageLine]
  · simp [usageLabel, isFrontageLine]

/-! ### Theorems: endpoint pre-filter (C7) -/

/-- C7. A queried boundary line enters the valid set only when both of its
endpoints lie within the 1.5 meter threshold of the parcel polygon, and a
line rejected by this endpoint test never reaches the frontage set even when
its usage attributes classify it as frontage. -/
theorem endpoint_filter_excludes
    (distToPolygon : GeomPoint → ℚ) (features : List LineFeature) (lf : LineFeature) :
    (validLine distToPolygon lf = true →
      2 ≤ lf.path.length ∧
      ∃ s e, lf.path.head? = some s ∧ lf.path.getLast? = some e ∧
        distToPolygon s ≤ ENDPOINT_DISTANCE_THRESHOLD ∧
        distToPolygon e ≤ ENDPOINT_DISTANCE_THRESHOLD)
    ∧ (validLine distToPolygon lf = false →
        lf ∉ frontageLinesOf distToPolygon features) := by
  constructor
  · intro hv
    unfold validLine at hv
    split at hv
    · exact absurd hv (by simp)
    · rename_i hlen
      constructor
      · omega
      · revert hv
        split
        · rename_i s e hs he
          intro hv
          simp only [Bool.and_eq_true, decide_eq_true_eq] at hv
          exact ⟨s, e, hs, he, hv.1, hv.2⟩
        · intro hv
          exact absurd hv (by simp)
  · intro hbad hmem
    unfold frontageLinesOf at hmem
    have h1 : lf ∈ features.filter (validLine distToPolygon) := List.mem_of_mem_filter hmem
    have h2 : validLine distToPolygon lf = true := List.of_mem_filter h1
    rw [hbad] at h2
    exact absurd h2 (by simp)

/-- Sample boundary line used by the endpoint-filter witness. -/
def sampleLineFeature : LineFeature :=
  { path := [{ x := 0, y := 0 }, { x := 3, y := 0 }],
    attrs := { usage_code := .num 1, render_normal := .undef } }

/-- Witness for the endpoint pre-filter theorem at a concrete line whose two
endpoints both sit within the threshold. -/
theorem endpoint_filter_excludes_witness :
    validLine (fun _ => 1) sampleLineFeature = true ∧ 2 ≤ sampleLineFeature.path.length := by
  have hv : validLine (fun _ => 1) sampleLineFeature = true := by
    norm_num [validLine, sampleLineFeature, ENDPOINT_DISTANCE_THRESHOLD, List.getLast?]
  have h := endpoint_filter_excludes (fun _ => 1) [] sampleLineFeature
  exact ⟨hv, (h.1 hv).1⟩

/-! ### Theorems: edge-proximity matcher (C4) -/

/-- C4. The matcher returns true exactly when the distances from both edge
endpoints to the reference line are at most the 2 meter tolerance, and its
verdict is unchanged when the edge's start and end points are swapped. -/
theorem edgeMatches_endpoint_rule_and_swap :
    (∀ (FGeom : Type) (distance : GeomPoint → FGeom → ℚ) (edge : PolyEdge) (ref : FGeom),
      edgeMatchesFrontageLine distance edge ref = true ↔
        (distance edge.start ref ≤ edgeDistanceThreshold ∧
         distance edge.stop ref ≤ edgeDistanceThreshold))
    ∧ (∀ (FGeom : Type) (distance : GeomPoint → FGeom → ℚ) (a b : GeomPoint) (ref : FGeom),
        edgeMatchesFrontageLine distance { start := a, stop := b } ref =
          edgeMatchesFrontageLine distance { start := b, stop := a } ref) := by
  constructor
  · intro FGeom distance edge ref
    simp [edgeMatchesFrontageLine]
  · intro FGeom distance a b ref
    simp only [edgeMatchesFrontageLine]
    exact Bool.and_comm _ _

/-! ### Theorems: identifier resolution (C8) -/

/-- C8 counterexample. A parcel whose objectid field holds the number 0 (a
non-null value) does not resolve to 0: the JavaScript logical-or chain skips
falsy values, so resolution falls through to the next field and, with the
other fields absent, yields undefined. -/
theorem resolvePolygonId_zero_cex :
    resolvePolygonId { objectid := .num 0, __OBJECTID := .undef, OBJECTID := .undef }
      ≠ .num 0 := by
  decide

/-- C8 amended. The identifier is resolved by checking objectid, __OBJECTID
and OBJECTID in order, and the first truthy (not merely non-null) value wins;
in particular a falsy objectid value such as 0 is skipped. -/
theorem resolvePolygonId_first_truthy (a : ParcelAttrs) :
    resolvePolygonId a =
      (if a.objectid.truthy then a.objectid
       else if a.__OBJECTID.truthy then a.__OBJECTID
       else a.OBJECTID) := by
  unfold resolvePolygonId jsOr
  split <;> simp_all

/-! ### Subdivision engine (subdivision-layer module)

The module-level mutable variables (subdivisionMode, currentPolygonGeometry,
currentPolygonGraphic, drawingPoints), the subdivision layer's completed line
graphics, the cached parent frontage lines, the committed sub-polygon data
and the user-visible alert messages are gathered into one explicit state
record. FGeom is the opaque geometry type of a parent frontage line and Attr
its attribute record type. -/

structure Polygon where
  rings : List (List GeomPoint)
deriving DecidableEq, Repr

inductive PointType where
  | boundary : PointType
  | midpoint : PointType
deriving DecidableEq, Repr

def PointType.typeName : PointType → String
  | .boundary => "boundary"
  | .midpoint => "midpoint"

structure DrawingPoint where
  point : GeomPoint
  ptype : PointType
  snapped : Bool
  originalClick : GeomPoint
deriving DecidableEq, Repr

/-- One completed subdivision line graphic: its polyline path and the
subdivisionLine attributes that matter to the decision logic. -/
structure CompletedLine where
  path : List GeomPoint
  subdivisionType : String
  pointCount : Nat
deriving DecidableEq, Repr

structure ParentFrontage (FGeom Attr : Type) where
  geometry : FGeom
  attributes : Attr
deriving DecidableEq, Repr

/-- One inherited frontage segment of a sub-polygon: a two-point polyline
built from the matched edge, carrying the parent line's attributes. -/
structure FrontageSeg (Attr : Type) where
  startPt : GeomPoint
  endPt : GeomPoint
  attributes : Attr
deriving DecidableEq, Repr

structure SubPolyResult (Attr : Type) where
  geometry : Polygon
  frontageLines : List (FrontageSeg Attr)
  index : Nat
  originalPolygonId : JSValue
deriving DecidableEq, Repr

structure SubdivisionAppState (FGeom Attr : Type) where
  subdivisionMode : Bool
  currentPolygonGeometry : Option Polygon
  currentPolygonGraphic : Option ParcelAttrs
  drawingPoints : List DrawingPoint
  subdivisionLines : List CompletedLine
  parentFrontageLines : List (ParentFrontage FGeom Attr)
  subPolygonData : Option (List (SubPolyResult Attr))
  alerts : List String
deriving DecidableEq, Repr

/-- Geometry-engine oracles consumed while drawing subdivision points:
polygon containment, the nearest coordinate (with its distance) on one edge,
and point-to-point distance in meters. -/
structure DrawEngine where
  contains : Polygon → GeomPoint → Bool
  nearestCoordinate : PolyEdge → GeomPoint → GeomPoint × ℚ
  distance : GeomPoint → GeomPoint → ℚ

/-- Consecutive-vertex edges of a ring, exactly the pairs visited by the
source loops over indices 0 to length - 2. -/
def ringEdges (ring : List GeomPoint) : List PolyEdge :=
  (ring.zip ring.tail).map (fun pq => { start := pq.1, stop := pq.2 })

/-- The outer boundary is the first ring. -/
def outerRing (poly : Polygon) : List GeomPoint :=
  poly.rings.headD []

/-- Embedding of the nearest-boundary-point search: the nearest coordinate on
each outer-ring edge is computed and the one at strictly smallest distance
wins, earlier edges winning ties; none is returned when the ring has no edge
(where the source would fail on a null nearest point). -/
def findNearestEdgePoint (nearestCoordinate : PolyEdge → GeomPoint → GeomPoint × ℚ)
    (clickPoint : GeomPoint) (poly : Polygon) : Option GeomPoint :=
  let best := (ringEdges (outerRing poly)).foldl
    (fun acc edge =>
      let r := nearestCoordinate edge clickPoint
      match acc with
      | none => some r
      | some b => if r.2 < b.2 then some r else acc)
    none
  best.map Prod.fst

/-- Character-level collapse of space runs; the Boolean remembers whether the
previous character was a space. -/
def squeezeSpaces : Bool → List Char → List Char
  | _, [] => []
  | prevSpace, c :: rest =>
    if c = ' ' then
      if prevSpace then squeezeSpaces true rest
      else c :: squeezeSpaces true rest
    else c :: squeezeSpaces false rest

/-- Collapse of whitespace runs, the replace of consecutive whitespace by one
space applied to the subdivision type string (the only whitespace occurring
in these strings is the plain space character). -/
def collapseSpaces (s : String) : String :=
  { data := squeezeSpaces false s.data }

/-- Embedding of the human-readable subdivision type string: all-boundary
point runs give "boundary to boundary", otherwise the inner point kinds are
joined between the two boundary endpoints. -/
def subdivisionTypeString (types : List PointType) : String :=
  if types.all (fun t => t == .boundary) then "boundary to boundary"
  else
    collapseSpaces
      ("boundary to "
        ++ String.intercalate " to " (((types.drop 1).dropLast).map PointType.typeName)
        ++ " to boundary")

/-- Embedding of the line finalization: with at least two accumulated points,
a polyline through all of them in order is stored as a completed subdivision
line tagged with the type string and point count, and the accumulator is
reset. -/
def drawSubdivisionLine {FGeom Attr : Type} (st : SubdivisionAppState FGeom Attr) :
    SubdivisionAppState FGeom Attr :=
  if st.drawingPoints.length < 2 then st
  else
    let path := st.drawingPoints.map (fun pd => pd.point)
    let types := st.drawingPoints.map (fun pd => pd.ptype)
    let line : CompletedLine :=
      { path := path, subdivisionType := subdivisionTypeString types,
        pointCount := st.drawingPoints.length }
    { st with subdivisionLines := st.subdivisionLines ++ [line], drawingPoints := [] }

/-- Appending of one classified drawing point followed by the finalization
check: finalize exactly when the accumulator now holds at least two points
and the just-added point is a boundary point. -/
def afterClick {FGeom Attr : Type} (st : SubdivisionAppState FGeom Attr)
    (pointData : DrawingPoint) : SubdivisionAppState FGeom Attr :=
  let st1 := { st with drawingPoints := st.drawingPoints ++ [pointData] }
  if 2 ≤ st1.drawingPoints.length && pointData.ptype == .boundary then
    drawSubdivisionLine st1
  else st1

/-- Embedding of the subdivision click handler. The Boolean is the handled
flag; none models the uncaught failure the source hits when no nearest
boundary point exists (empty outer ring). The click is typed boundary (and
snapped) when it is the first point, when it falls outside the polygon, or
when it lies inside strictly within five meters of the boundary; otherwise
the raw click is kept and typed midpoint. -/
def handleSubdivisionClick {FGeom Attr : Type} (eng : DrawEngine)
    (st : SubdivisionAppState FGeom Attr) (mapPoint : GeomPoint) :
    Option (SubdivisionAppState FGeom Attr × Bool) :=
  match st.currentPolygonGeometry with
  | none => some (st, false)
  | some poly =>
    if st.subdivisionMode = false then some (st, false)
    else
      let isInside := eng.contains poly mapPoint
      match findNearestEdgePoint eng.nearestCoordinate mapPoint poly with
      | none => none
      | some nearestEdgePoint =>
        let distanceToEdge := eng.distance mapPoint nearestEdgePoint
        let pointData : DrawingPoint :=
          if st.drawingPoints.length = 0 then
            { point := nearestEdgePoint, ptype := .boundary, snapped := true,
              originalClick := mapPoint }
          else if isInside = false then
            { point := nearestEdgePoint, ptype := .boundary, snapped := true,
              originalClick := mapPoint }
          else if distanceToEdge < 5 then
            { point := nearestEdgePoint, ptype := .boundary, snapped := true,
              originalClick := mapPoint }
          else
            { point := mapPoint, ptype := .midpoint, snapped := false,
              originalClick := mapPoint }
        some (afterClick st pointData, true)

/-! ### Subdivision completion (cut loop, frontage propagation, node steps) -/

/-- Body of the inner cut loop for one polygon: a successful nonempty cut
contributes its pieces, a null or empty cut result keeps the original
polygon. -/
def cutResultOrKeep (cut : Polygon → List GeomPoint → Option (List Polygon))
    (line : CompletedLine) (poly : Polygon) : List Polygon :=
  match cut poly line.path with
  | some (q :: qs) => q :: qs
  | _ => [poly]

/-- Embedding of one pass of the cut loop: the given line cuts every polygon
currently in the working list; a polygon whose cut returns null or an empty
list is kept unmodified in place of its would-be pieces. -/
def cutStep (cut : Polygon → List GeomPoint → Option (List Polygon))
    (line : CompletedLine) (subPolygons : List Polygon) : List Polygon :=
  subPolygons.foldl (fun acc poly => acc ++ cutResultOrKeep cut line poly) []

/-- Edges of the sub-polygon outer ring, as extracted before frontage
propagation. -/
def extractPolygonEdges (polygon : Polygon) : List PolyEdge :=
  ringEdges (outerRing polygon)

/-- Embedding of the frontage propagation for one sub-polygon: with no parent
frontage the result is empty; otherwise each boundary edge is tested against
the parent frontage lines in order, the first match wins, and a matched edge
contributes one two-point frontage segment carrying the parent attributes. -/
def calculateSubPolygonFrontage {FGeom Attr : Type} (distPL : GeomPoint → FGeom → ℚ)
    (subPolygon : Polygon) (parentFrontageLines : List (ParentFrontage FGeom Attr)) :
    List (FrontageSeg Attr) :=
  if parentFrontageLines.isEmpty then []
  else
    (extractPolygonEdges subPolygon).filterMap (fun edge =>
      (parentFrontageLines.find?
          (fun pf => edgeMatchesFrontageLine distPL edge pf.geometry)).map
        (fun pf => { startPt := edge.start, endPt := edge.stop, attributes := pf.attributes }))

/-- Per-sub-polygon results of completion step 2, in cut output order, with
0-based indices and the resolved parent identifier. -/
def buildSubPolygonResults {FGeom Attr : Type} (distPL : GeomPoint → FGeom → ℚ)
    (subPolys : List Polygon) (parentFrontageLines : List (ParentFrontage FGeom Attr))
    (originalId : JSValue) : List (SubPolyResult Attr) :=
  subPolys.enum.map (fun ip =>
    { geometry := ip.2,
      frontageLines := calculateSubPolygonFrontage distPL ip.2 parentFrontageLines,
      index := ip.1, originalPolygonId := originalId })

/-- Geometry-engine and workflow oracles consumed by subdivision completion:
the polygon cut, the point-to-frontage distance used by the edge matcher, and
the two asynchronous per-workflow steps (electrical node generation and node
visualization), which perform fallible layer queries and are modelled as
exception-throwing calls. -/
structure CompletionEngine (FGeom Attr : Type) where
  cut : Polygon → List GeomPoint → Option (List Polygon)
  distPL : GeomPoint → FGeom → ℚ
  generateNodes : List (SubPolyResult Attr) → Except String Unit
  updateVis : List (SubPolyResult Attr) → Except String Unit

/-- Embedding of the subdivision-mode exit: the mode flag, the cached polygon
geometry and graphic and the point accumulator are cleared. -/
def disableSubdivisionMode {FGeom Attr : Type} (st : SubdivisionAppState FGeom Attr) :
    SubdivisionAppState FGeom Attr :=
  { st with
      subdivisionMode := false
      currentPolygonGeometry := none
      currentPolygonGraphic := none
      drawingPoints := [] }

/-- Embedding of subdivision completion. Steps: (1) every completed line, in
drawn order, cuts every polygon of the working list; (2) frontage is
propagated to each sub-polygon; (3) the sub-polygon results are committed to
the application state (the rendering step); (4) electrical nodes are
generated; (5) the node visualization is updated. A thrown step reports a
failure alert and leaves every mutation already performed in place; only the
successful path reports completion and exits subdivision mode. -/
def completeSubdivision {FGeom Attr : Type} (eng : CompletionEngine FGeom Attr)
    (st : SubdivisionAppState FGeom Attr) : SubdivisionAppState FGeom Attr :=
  match st.currentPolygonGeometry, st.currentPolygonGraphic with
  | some geom, some attrs =>
    if st.subdivisionLines.isEmpty then st
    else
      let subPolys := st.subdivisionLines.foldl
        (fun polys line => cutStep eng.cut line polys) [geom]
      let results := buildSubPolygonResults eng.distPL subPolys st.parentFrontageLines
        (resolvePolygonIdOrUnknown attrs)
      let st3 := { st with subPolygonData := some results }
      match eng.generateNodes results with
      | .error e => { st3 with alerts := st3.alerts ++ ["Subdivision failed: " ++ e] }
      | .ok _ =>
        match eng.updateVis results with
        | .error e => { st3 with alerts := st3.alerts ++ ["Subdivision failed: " ++ e] }
        | .ok _ =>
          disableSubdivisionMode
            ({ st3 with alerts := st3.alerts ++
                ["Subdivision complete! Created " ++ toString subPolys.length
                  ++ " sub-polygons."] })
  | _, _ => st

/-! ### Helper lemmas on the cut loop -/

/-- Accumulator extraction for folds that only append. -/
theorem foldl_append_extract {α β : Type} (f : α → List β) :
    ∀ (l : List α) (acc : List β),
      l.foldl (fun a x => a ++ f x) acc = acc ++ l.foldl (fun a x => a ++ f x) [] := by
  intro l
  induction l with
  | nil => intro acc; simp
  | cons x xs ih =>
      intro acc
      simp only [List.foldl_cons, List.nil_append]
      rw [ih (acc ++ f x), ih (f x), List.append_assoc]

theorem cutStep_nil (cut : Polygon → List GeomPoint → Option (List Polygon))
    (line : CompletedLine) : cutStep cut line [] = [] := rfl

theorem cutStep_cons (cut : Polygon → List GeomPoint → Option (List Polygon))
    (line : CompletedLine) (p : Polygon) (rest : List Polygon) :
    cutStep cut line (p :: rest) = cutResultOrKeep cut line p ++ cutStep cut line rest := by
  unfold cutStep
  simp only [List.foldl_cons, List.nil_append]
  exact foldl_append_extract (cutResultOrKeep cut line) rest (cutResultOrKeep cut line p)

/-! ### Theorems: cut loop failure policy (C6) -/

/-- C6. In the subdivision cut loop a polygon whose cut returns null or an
empty list is kept unmodified in the result list; when the cut fails for all
polygons the working list passes through unchanged; and cut failure is never
surfaced as an error: with any cut oracle whatsoever, completion succeeds
(reports the completion message and exits subdivision mode) as long as the
node-generation and visualization steps succeed. -/
theorem cut_loop_keeps_failed_polygons
    (cut : Polygon → List GeomPoint → Option (List Polygon)) (line : CompletedLine)
    (subPolygons : List Polygon) :
    (∀ poly ∈ subPolygons,
      (cut poly line.path = none ∨ cut poly line.path = some []) →
      poly ∈ cutStep cut line subPolygons)
    ∧ ((∀ poly ∈ subPolygons, cut poly line.path = none) →
        cutStep cut line subPolygons = subPolygons)
    ∧ (∀ (FGeom Attr : Type) (eng : CompletionEngine FGeom Attr)
        (st : SubdivisionAppState FGeom Attr) (geom : Polygon) (attrs : ParcelAttrs),
        st.currentPolygonGeometry = some geom → st.currentPolygonGraphic = some attrs →
        st.subdivisionLines ≠ [] →
        (∀ rs, eng.generateNodes rs = .ok ()) → (∀ rs, eng.updateVis rs = .ok ()) →
        (completeSubdivision eng st).subdivisionMode = false ∧
        ∃ n : Nat, (completeSubdivision eng st).alerts =
          st.alerts ++ ["Subdivision complete! Created " ++ toString n ++ " sub-polygons."]) := by
  refine ⟨?_, ?_, ?_⟩
  · intro poly hmem hfail
    induction subPolygons with
    | nil => cases hmem
    | cons p rest ih =>
        rw [cutStep_cons]
        rcases List.mem_cons.mp hmem with hp | hrest
        · subst hp
          have : poly ∈ cutResultOrKeep cut line poly := by
            unfold cutResultOrKeep
            rcases hfail with h | h <;> rw [h] <;> simp
          exact List.mem_append_left _ this
        · exact List.mem_append_right _ (ih hrest)
  · intro hall
    induction subPolygons with
    | nil => rfl
    | cons p rest ih =>
        rw [cutStep_cons]
        have hp : cutResultOrKeep cut line p = [p] := by
          unfold cutResultOrKeep
          rw [hall p (List.mem_cons_self p rest)]
        rw [hp, ih (fun q hq => hall q (List.mem_cons_of_mem p hq))]
        rfl
  · intro FGeom Attr eng st geom attrs hgeom hattrs hne hgen hvis
    unfold completeSubdivision
    rw [hgeom, hattrs]
    simp only [List.isEmpty_eq_true]
    rw [if_neg hne, hgen, hvis]
    constructor
    · rfl
    · exact ⟨_, rfl⟩

/-- Sample polygon (a closed triangular ring) used by concrete witnesses. -/
def samplePolygon : Polygon :=
  { rings := [[{ x := 0, y := 0 }, { x := 10, y := 0 }, { x := 10, y := 10 },
    { x := 0, y := 0 }]] }

/-- Sample completed subdivision line used by concrete witnesses. -/
def sampleCompletedLine : CompletedLine :=
  { path := [{ x := 0, y := 0 }, { x := 10, y := 10 }],
    subdivisionType := "boundary to boundary", pointCount := 2 }

/-- Witness for the cut-loop policy theorem: with a cut oracle that always
fails, the sample polygon is kept and the working list is unchanged. -/
theorem cut_loop_keeps_failed_polygons_witness :
    samplePolygon ∈ cutStep (fun _ _ => none) sampleCompletedLine [samplePolygon] ∧
    cutStep (fun _ _ => none) sampleCompletedLine [samplePolygon] = [samplePolygon] := by
  have h := cut_loop_keeps_failed_polygons (fun _ _ => none) sampleCompletedLine [samplePolygon]
  exact ⟨h.1 samplePolygon (List.mem_singleton.mpr rfl) (Or.inl rfl),
    h.2.1 (fun p _ => rfl)⟩

/-! ### Theorems: completion failure semantics (C2) -/

/-- Sample parcel attributes used by concrete witnesses. -/
def sampleParcelAttrs : ParcelAttrs :=
  { objectid := .num 7, __OBJECTID := .undef, OBJECTID := .undef }

/-- Completion engine whose electrical-node generation step throws. -/
def failingNodeEngine : CompletionEngine Unit Unit :=
  { cut := fun _ _ => none, distPL := fun _ _ => 0,
    generateNodes := fun _ => .error "boom", updateVis := fun _ => .ok () }

/-- Subdivision session state about to complete: mode active, one drawn
line, a cached polygon and graphic, nothing committed yet. -/
def sampleSubdivisionState : SubdivisionAppState Unit Unit :=
  { subdivisionMode := true
    currentPolygonGeometry := some samplePolygon
    currentPolygonGraphic := some sampleParcelAttrs
    drawingPoints := []
    subdivisionLines := [sampleCompletedLine]
    parentFrontageLines := []
    subPolygonData := none
    alerts := [] }

/-- C2 counterexample. When the electrical-node generation step throws during
completion, the session does not return to Idle (subdivision mode stays
active) and the sub-polygon state committed by the rendering step remains:
both halves of the claimed failure contract are violated at this input. -/
theorem completeSubdivision_failure_cex :
    (completeSubdivision failingNodeEngine sampleSubdivisionState).subdivisionMode = true ∧
    (completeSubdivision failingNodeEngine sampleSubdivisionState).subPolygonData ≠ none := by
  decide

/-- C2 amended. An exception thrown during completion aborts the remaining
steps and reports a failure alert, but subdivision mode is not exited and the
sub-polygon results committed by the rendering step (when reached) are
retained; only the successful path exits subdivision mode. -/
theorem completeSubdivision_failure_semantics
    (FGeom Attr : Type) (eng : CompletionEngine FGeom Attr)
    (st : SubdivisionAppState FGeom Attr) (geom : Polygon) (attrs : ParcelAttrs)
    (hgeom : st.currentPolygonGeometry = some geom)
    (hattrs : st.currentPolygonGraphic = some attrs)
    (hne : st.subdivisionLines ≠ []) :
    let subPolys := st.subdivisionLines.foldl
      (fun polys line => cutStep eng.cut line polys) [geom]
    let results := buildSubPolygonResults eng.distPL subPolys st.parentFrontageLines
      (resolvePolygonIdOrUnknown attrs)
    (∀ e, eng.generateNodes results = .error e →
      completeSubdivision eng st =
        { st with
            subPolygonData := some results
            alerts := st.alerts ++ ["Subdivision failed: " ++ e] })
    ∧ (∀ e, eng.generateNodes results = .ok () → eng.updateVis results = .error e →
        completeSubdivision eng st =
          { st with
              subPolygonData := some results
              alerts := st.alerts ++ ["Subdivision failed: " ++ e] })
    ∧ (eng.generateNodes results = .ok () → eng.updateVis results = .ok () →
        (completeSubdivision eng st).subdivisionMode = false) := by
  intro subPolys results
  refine ⟨?_, ?_, ?_⟩
  · intro e herr
    unfold completeSubdivision
    rw [hgeom, hattrs]
    simp only [List.isEmpty_eq_true]
    rw [if_neg hne, herr]
  · intro e hok herr
    unfold completeSubdivision
    rw [hgeom, hattrs]
    simp only [List.isEmpty_eq_true]
    rw [if_neg hne, hok, herr]
  · intro hok hvis
    unfold completeSubdivision
    rw [hgeom, hattrs]
    simp only [List.isEmpty_eq_true]
    rw [if_neg hne, hok, hvis]
    rfl

/-- Witness for the amended completion failure semantics, at the sample state
and the throwing engine: the reported alert is exactly the failure message. -/
theorem completeSubdivision_failure_semantics_witness :
    (completeSubdivision failingNodeEngine sampleSubdivisionState).alerts =
      ["Subdivision failed: boom"] := by
  have h := completeSubdivision_failure_semantics Unit Unit failingNodeEngine
    sampleSubdivisionState samplePolygon sampleParcelAttrs rfl rfl (by decide)
  rw [h.1 "boom" rfl]
  rfl

/-! ### Helper lemmas on the click handler -/

theorem afterClick_no_finalize {FGeom Attr : Type} (st : SubdivisionAppState FGeom Attr)
    (pd : DrawingPoint) (h : ¬(2 ≤ st.drawingPoints.length + 1 ∧ pd.ptype = .boundary)) :
    afterClick st pd = { st with drawingPoints := st.drawingPoints ++ [pd] } := by
  unfold afterClick
  rw [if_neg]
  intro hc
  simp only [List.length_append, List.length_cons, List.length_nil, Bool.and_eq_true,
    decide_eq_true_eq, beq_iff_eq] at hc
  exact h ⟨by omega, hc.2⟩

theorem afterClick_finalize {FGeom Attr : Type} (st : SubdivisionAppState FGeom Attr)
    (pd : DrawingPoint) (hlen : 2 ≤ st.drawingPoints.length + 1) (hb : pd.ptype = .boundary) :
    afterClick st pd =
      { st with
          subdivisionLines := st.subdivisionLines ++
            [{ path := (st.drawingPoints ++ [pd]).map (fun q => q.point)
               subdivisionType :=
                 subdivisionTypeString ((st.drawingPoints ++ [pd]).map (fun q => q.ptype))
               pointCount := st.drawingPoints.length + 1 }]
          drawingPoints := [] } := by
  unfold afterClick
  rw [if_pos]
  · unfold drawSubdivisionLine
    rw [if_neg]
    · simp only [List.length_append, List.length_cons, List.length_nil]
    · simp only [List.length_append, List.length_cons, List.length_nil]
      omega
  · simp only [List.length_append, List.length_cons, List.length_nil, Bool.and_eq_true,
      decide_eq_true_eq, beq_iff_eq]
    exact ⟨by omega, hb⟩

theorem afterClick_mode {FGeom Attr : Type} (st : SubdivisionAppState FGeom Attr)
    (pd : DrawingPoint) : (afterClick st pd).subdivisionMode = st.subdivisionMode := by
  by_cases hc : 2 ≤ st.drawingPoints.length + 1 ∧ pd.ptype = .boundary
  · rw [afterClick_finalize st pd hc.1 hc.2]
  · rw [afterClick_no_finalize st pd hc]

theorem afterClick_geometry {FGeom Attr : Type} (st : SubdivisionAppState FGeom Attr)
    (pd : DrawingPoint) :
    (afterClick st pd).currentPolygonGeometry = st.currentPolygonGeometry := by
  by_cases hc : 2 ≤ st.drawingPoints.length + 1 ∧ pd.ptype = .boundary
  · rw [afterClick_finalize st pd hc.1 hc.2]
  · rw [afterClick_no_finalize st pd hc]

theorem handleClick_first {FGeom Attr : Type} (eng : DrawEngine)
    (st : SubdivisionAppState FGeom Attr) (poly : Polygon) (p nep : GeomPoint)
    (hgeom : st.currentPolygonGeometry = some poly) (hmode : st.subdivisionMode = true)
    (hnear : findNearestEdgePoint eng.nearestCoordinate p poly = some nep)
    (hdp : st.drawingPoints = []) :
    handleSubdivisionClick eng st p =
      some (afterClick st
        { point := nep, ptype := .boundary, snapped := true, originalClick := p }, true) := by
  simp only [handleSubdivisionClick, hgeom, hmode, hnear, hdp]
  simp

theorem handleClick_outside {FGeom Attr : Type} (eng : DrawEngine)
    (st : SubdivisionAppState FGeom Attr) (poly : Polygon) (p nep : GeomPoint)
    (hgeom : st.currentPolygonGeometry = some poly) (hmode : st.subdivisionMode = true)
    (hnear : findNearestEdgePoint eng.nearestCoordinate p poly = some nep)
    (hdp : st.drawingPoints ≠ []) (hcont : eng.contains poly p = false) :
    handleSubdivisionClick eng st p =
      some (afterClick st
        { point := nep, ptype := .boundary, snapped := true, originalClick := p }, true) := by
  have hlen : st.drawingPoints.length ≠ 0 := by
    simpa [List.length_eq_zero] using hdp
  simp only [handleSubdivisionClick, hgeom, hmode, hnear, hcont, if_neg hlen]
  simp

theorem handleClick_near {FGeom Attr : Type} (eng : DrawEngine)
    (st : SubdivisionAppState FGeom Attr) (poly : Polygon) (p nep : GeomPoint)
    (hgeom : st.currentPolygonGeometry = some poly) (hmode : st.subdivisionMode = true)
    (hnear : findNearestEdgePoint eng.nearestCoordinate p poly = some nep)
    (hdp : st.drawingPoints ≠ []) (hcont : eng.contains poly p = true)
    (hd : eng.distance p nep < 5) :
    handleSubdivisionClick eng st p =
      some (afterClick st
        { point := nep, ptype := .boundary, snapped := true, originalClick := p }, true) := by
  have hlen : st.drawingPoints.length ≠ 0 := by
    simpa [List.length_eq_zero] using hdp
  simp only [handleSubdivisionClick, hgeom, hmode, hnear, hcont, if_neg hlen, if_pos hd]
  simp

theorem handleClick_far {FGeom Attr : Type} (eng : DrawEngine)
    (st : SubdivisionAppState FGeom Attr) (poly : Polygon) (p nep : GeomPoint)
    (hgeom : st.currentPolygonGeometry = some poly) (hmode : st.subdivisionMode = true)
    (hnear : findNearestEdgePoint eng.nearestCoordinate p poly = some nep)
    (hdp : st.drawingPoints ≠ []) (hcont : eng.contains poly p = true)
    (hd : ¬ eng.distance p nep < 5) :
    handleSubdivisionClick eng st p =
      some (afterClick st
        { point := p, ptype := .midpoint, snapped := false, originalClick := p }, true) := by
  have hlen : st.drawingPoints.length ≠ 0 := by
    simpa [List.length_eq_zero] using hdp
  simp only [handleSubdivisionClick, hgeom, hmode, hnear, hcont, if_neg hlen, if_neg hd]
  simp

/-- Evaluation of the type string for a boundary, midpoint, boundary run. -/
theorem subdivisionTypeString_bmb :
    subdivisionTypeString [.boundary, .midpoint, .boundary] =
      "boundary to midpoint to boundary" := by
  decide

/-! ### Theorems: click typing and line finalization (C5) -/

/-- C5. During an active subdivision session: the first point always snaps to
the nearest boundary point and is typed boundary; a click outside the parcel
snaps to boundary; a click inside strictly within five meters of the boundary
snaps to boundary; any other click keeps its raw position and is typed
midpoint. A line is finalized exactly when the accumulator holds at least two
points and the just-added point is boundary. The click sequence outside,
inside-far, outside produces exactly one completed line of three points typed
boundary, midpoint, boundary with type string
"boundary to midpoint to boundary". -/
theorem subdivisionClick_rules_and_scenario
    (FGeom Attr : Type) (eng : DrawEngine) (st : SubdivisionAppState FGeom Attr)
    (poly : Polygon)
    (hgeom : st.currentPolygonGeometry = some poly)
    (hmode : st.subdivisionMode = true) :
    (∀ p nep, findNearestEdgePoint eng.nearestCoordinate p poly = some nep →
      (st.drawingPoints = [] →
        handleSubdivisionClick eng st p =
          some (afterClick st
            { point := nep, ptype := .boundary, snapped := true, originalClick := p }, true))
      ∧ (st.drawingPoints ≠ [] → eng.contains poly p = false →
          handleSubdivisionClick eng st p =
            some (afterClick st
              { point := nep, ptype := .boundary, snapped := true, originalClick := p }, true))
      ∧ (st.drawingPoints ≠ [] → eng.contains poly p = true → eng.distance p nep < 5 →
          handleSubdivisionClick eng st p =
            some (afterClick st
              { point := nep, ptype := .boundary, snapped := true, originalClick := p }, true))
      ∧ (st.drawingPoints ≠ [] → eng.contains poly p = true → ¬ eng.distance p nep < 5 →
          handleSubdivisionClick eng st p =
            some (afterClick st
              { point := p, ptype := .midpoint, snapped := false, originalClick := p }, true)))
    ∧ (∀ pd : DrawingPoint,
        (afterClick st pd).subdivisionLines ≠ st.subdivisionLines ↔
          (2 ≤ st.drawingPoints.length + 1 ∧ pd.ptype = .boundary))
    ∧ (∀ p1 p2 p3 nep1 nep2 nep3 : GeomPoint,
        st.drawingPoints = [] → st.subdivisionLines = [] →
        findNearestEdgePoint eng.nearestCoordinate p1 poly = some nep1 →
        findNearestEdgePoint eng.nearestCoordinate p2 poly = some nep2 →
        findNearestEdgePoint eng.nearestCoordinate p3 poly = some nep3 →
        eng.contains poly p2 = true → ¬ eng.distance p2 nep2 < 5 →
        eng.contains poly p3 = false →
        ∀ (st1 st2 st3 : SubdivisionAppState FGeom Attr) (b1 b2 b3 : Bool),
          handleSubdivisionClick eng st p1 = some (st1, b1) →
          handleSubdivisionClick eng st1 p2 = some (st2, b2) →
          handleSubdivisionClick eng st2 p3 = some (st3, b3) →
          st3.subdivisionLines =
            [{ path := [nep1, p2, nep3]
               subdivisionType := "boundary to midpoint to boundary"
               pointCount := 3 }]
          ∧ st3.drawingPoints = []) := by
  refine ⟨?_, ?_, ?_⟩
  · intro p nep hnear
    exact ⟨handleClick_first eng st poly p nep hgeom hmode hnear,
      handleClick_outside eng st poly p nep hgeom hmode hnear,
      handleClick_near eng st poly p nep hgeom hmode hnear,
      handleClick_far eng st poly p nep hgeom hmode hnear⟩
  · intro pd
    by_cases hc : 2 ≤ st.drawingPoints.length + 1 ∧ pd.ptype = .boundary
    · rw [afterClick_finalize st pd hc.1 hc.2]
      refine iff_of_true ?_ hc
      intro h
      apply_fun List.length at h
      simp at h
    · rw [afterClick_no_finalize st pd hc]
      exact iff_of_false (by simp) hc
  · intro p1 p2 p3 nep1 nep2 nep3 hdp hlines hnear1 hnear2 hnear3 hcont2 hd2 hcont3
    intro st1 st2 st3 b1 b2 b3 h1 h2 h3
    set pd1 : DrawingPoint :=
      { point := nep1, ptype := .boundary, snapped := true, originalClick := p1 } with hpd1
    set pd2 : DrawingPoint :=
      { point := p2, ptype := .midpoint, snapped := false, originalClick := p2 } with hpd2
    set pd3 : DrawingPoint :=
      { point := nep3, ptype := .boundary, snapped := true, originalClick := p3 } with hpd3
    -- click 1: first point, boundary snap, no finalization
    have e1 := handleClick_first eng st poly p1 nep1 hgeom hmode hnear1 hdp
    have hst1 : st1 = afterClick st pd1 :=
      congrArg Prod.fst (Option.some.inj (h1.symm.trans e1))
    have hnf1 : ¬(2 ≤ st.drawingPoints.length + 1 ∧ pd1.ptype = .boundary) := by
      rw [hdp]
      simp
    have hst1' : st1 = { st with drawingPoints := st.drawingPoints ++ [pd1] } := by
      rw [hst1, afterClick_no_finalize st pd1 hnf1]
    have hst1geom : st1.currentPolygonGeometry = some poly := by rw [hst1']; exact hgeom
    have hst1mode : st1.subdivisionMode = true := by rw [hst1']; exact hmode
    have hst1dp : st1.drawingPoints = [pd1] := by rw [hst1']; simp [hdp]
    have hst1lines : st1.subdivisionLines = [] := by rw [hst1']; exact hlines
    -- click 2: inside and far, raw midpoint, no finalization
    have e2 := handleClick_far eng st1 poly p2 nep2 hst1geom hst1mode hnear2
      (by rw [hst1dp]; simp) hcont2 hd2
    have hst2 : st2 = afterClick st1 pd2 :=
      congrArg Prod.fst (Option.some.inj (h2.symm.trans e2))
    have hnf2 : ¬(2 ≤ st1.drawingPoints.length + 1 ∧ pd2.ptype = .boundary) := by
      simp [hpd2]
    have hst2' : st2 = { st1 with drawingPoints := st1.drawingPoints ++ [pd2] } := by
      rw [hst2, afterClick_no_finalize st1 pd2 hnf2]
    have hst2geom : st2.currentPolygonGeometry = some poly := by rw [hst2']; exact hst1geom
    have hst2mode : st2.subdivisionMode = true := by rw [hst2']; exact hst1mode
    have hst2dp : st2.drawingPoints = [pd1, pd2] := by rw [hst2']; simp [hst1dp]
    have hst2lines : st2.subdivisionLines = [] := by rw [hst2']; exact hst1lines
    -- click 3: outside, boundary snap, finalization
    have e3 := handleClick_outside eng st2 poly p3 nep3 hst2geom hst2mode hnear3
      (by rw [hst2dp]; simp) hcont3
    have hst3 : st3 = afterClick st2 pd3 :=
      congrArg Prod.fst (Option.some.inj (h3.symm.trans e3))
    have hst3' := afterClick_finalize st2 pd3 (by rw [hst2dp]; simp) (by simp [hpd3])
    rw [hst3, hst3']
    constructor
    · simp only [hst2lines, hst2dp, List.nil_append]
      have hpath : ([pd1, pd2] ++ [pd3]).map (fun q => q.point) = [nep1, p2, nep3] := by
        simp [hpd1, hpd2, hpd3]
      have htypes : ([pd1, pd2] ++ [pd3]).map (fun q => q.ptype) =
          [.boundary, .midpoint, .boundary] := by
        simp [hpd1, hpd2, hpd3]
      rw [hpath, htypes, subdivisionTypeString_bmb]
      rfl
    · rfl

/-- Drawing engine used by the click-scenario witness: every nearest-edge
query answers the origin at distance one, the only contained point is the
interior sample point, and every point-to-point distance is seven meters. -/
def sampleDrawEngine : DrawEngine :=
  { contains := fun _ q => q == { x := 5, y := 5 }
    nearestCoordinate := fun _ _ => ({ x := 0, y := 0 }, 1)
    distance := fun _ _ => 7 }

/-- Fresh subdivision session on the sample polygon. -/
def freshSubdivisionState : SubdivisionAppState Unit Unit :=
  { subdivisionMode := true
    currentPolygonGeometry := some samplePolygon
    currentPolygonGraphic := some sampleParcelAttrs
    drawingPoints := []
    subdivisionLines := []
    parentFrontageLines := []
    subPolygonData := none
    alerts := [] }

/-- First state of the witness click sequence. -/
def witnessState1 : SubdivisionAppState Unit Unit :=
  afterClick freshSubdivisionState
    { point := { x := 0, y := 0 }, ptype := .boundary, snapped := true,
      originalClick := { x := 20, y := 0 } }

/-- Second state of the witness click sequence. -/
def witnessState2 : SubdivisionAppState Unit Unit :=
  afterClick witnessState1
    { point := { x := 5, y := 5 }, ptype := .midpoint, snapped := false,
      originalClick := { x := 5, y := 5 } }

/-- Third state of the witness click sequence. -/
def witnessState3 : SubdivisionAppState Unit Unit :=
  afterClick witnessState2
    { point := { x := 0, y := 0 }, ptype := .boundary, snapped := true,
      originalClick := { x := 0, y := 20 } }

/-- Witness for the click-typing and scenario theorem: the concrete click
sequence outside, inside-far, outside on the sample polygon yields exactly
one completed line of three points with the expected type string. -/
theorem subdivisionClick_rules_and_scenario_witness :
    witnessState3.subdivisionLines =
      [{ path := [{ x := 0, y := 0 }, { x := 5, y := 5 }, { x := 0, y := 0 }]
         subdivisionType := "boundary to midpoint to boundary"
         pointCount := 3 }]
    ∧ witnessState3.drawingPoints = [] := by
  have h := subdivisionClick_rules_and_scenario Unit Unit sampleDrawEngine
    freshSubdivisionState samplePolygon rfl rfl
  refine h.2.2 { x := 20, y := 0 } { x := 5, y := 5 } { x := 0, y := 20 }
    { x := 0, y := 0 } { x := 0, y := 0 } { x := 0, y := 0 }
    rfl rfl (by decide) (by decide) (by decide) (by decide) (by decide) (by decide)
    witnessState1 witnessState2 witnessState3 true true true ?_ ?_ ?_
  · decide
  · decide
  · decide

/-! ### Electrical node registry (electrical-infrastructure module)

The registry's module state (the electricalNodes array, the electrical layer
graphics relevant to potential-node pruning, and an allocation counter) is an
explicit record. Node identifiers: generated ids model the session-unique
NODE_/POTENTIAL_ timestamp-random strings through a per-session allocation
counter together with the potential flag of the prefix; pillar ids hold the
external pick_id attribute value (generated strings never collide with
pick_id values). The geometry work of one assignment - the frontage union,
its 30 meter sharing buffer, containment of a position in that buffer,
distance from a position to the union, the pillar-layer query against the
buffer, and the first-segment right-side potential placement (whose inset
computation involves square roots) - is a deterministic function of the
current selection and is supplied as the oracle record NodeEngine, exactly
the values the source obtains from the geometry engine and the feature
service for that selection. -/

def SHARING_THRESHOLD : ℚ := 30

inductive NodeId where
  | generated : Nat → Bool → NodeId
  | pillar : JSValue → NodeId
deriving DecidableEq, Repr

/-- One electrical node. The latitude/longitude display fields, creation
timestamp and the per-parcel centroid cache used only for drawing connection
lines are not modelled. -/
structure ElecNode where
  id : NodeId
  nodeType : String
  position : GeomPoint
  properties : List JSValue
  side : Option String
  isPotential : Bool
  isPillar : Bool
deriving DecidableEq, Repr

/-- The attributes of a rendered node graphic that the potential-node pruning
filter reads: the isPotential flag and the comma-joined served-parcel list. -/
structure NodeGraphic where
  electricalNode : Bool
  nodeId : NodeId
  propertiesStr : String
  isPotential : Bool
deriving DecidableEq, Repr

structure ElectricalState where
  electricalNodes : List ElecNode
  electricalGraphics : List NodeGraphic
  nextNodeIndex : Nat
deriving DecidableEq, Repr

structure PillarFeature where
  pick_id : JSValue
  position : GeomPoint
deriving DecidableEq, Repr

/-- Geometry and feature-service oracles for one node assignment: membership
of a position in the 30 meter frontage buffer, distance from a position to
the frontage union, the pillar query result (none when the pillar layer is
absent or the query throws - both skip the pillar step), and the chosen
potential placement, which the source always takes as the first-segment
right-side candidate of the four computed positions. -/
structure NodeEngine where
  inBuffer : GeomPoint → Bool
  distToFrontage : GeomPoint → ℚ
  pillarQuery : Option (List PillarFeature)
  chosenPosition : GeomPoint

/-- Best-candidate accumulator update: strictly smaller distance wins, the
incumbent survives ties; the index is the node's position in the registry
list and stands for the object reference the source keeps in bestNode. -/
def updateBest (best : Option (Nat × ElecNode × ℚ)) (i : Nat) (n : ElecNode) (d : ℚ) :
    Option (Nat × ElecNode × ℚ) :=
  match best with
  | none => some (i, n, d)
  | some (j, m, d0) => if d < d0 then some (i, n, d) else some (j, m, d0)

/-- Outcome of a candidate search pass: an early return of a node already
serving the parcel, or the best candidate found so far. -/
inductive SearchOutcome where
  | early : ElecNode → SearchOutcome
  | best : Option (Nat × ElecNode × ℚ) → SearchOutcome
deriving DecidableEq, Repr

/-- Embedding of the in-memory scan (step 3 of the nearby-node search):
potential nodes are skipped; a node already serving the parcel returns
immediately; otherwise a node inside the sharing buffer competes on distance
to the frontage. -/
def scanNodes (eng : NodeEngine) (pid : JSValue) :
    List ElecNode → Nat → Option (Nat × ElecNode × ℚ) → SearchOutcome
  | [], _, best => .best best
  | n :: rest, i, best =>
    if n.isPotential then scanNodes eng pid rest (i + 1) best
    else if pid ∈ n.properties then .early n
    else if eng.inBuffer n.position then
      scanNodes eng pid rest (i + 1) (updateBest best i n (eng.distToFrontage n.position))
    else scanNodes eng pid rest (i + 1) best

/-- Index-reporting first match, modelling the array find by node id. -/
def findWithIndex (p : ElecNode → Bool) : List ElecNode → Nat → Option (Nat × ElecNode)
  | [], _ => none
  | n :: rest, i => if p n then some (i, n) else findWithIndex p rest (i + 1)

/-- Embedding of the pillar pass (step 4 of the nearby-node search): each
queried pillar already tracked in the registry either returns early (when it
serves the parcel) or competes on distance; an untracked pillar is appended
to the registry as a pillar node with an empty served list and then competes
on distance. The registry mutations persist whatever the outcome. -/
def pillarLoop (eng : NodeEngine) (pid : JSValue) :
    List PillarFeature → List ElecNode → Option (Nat × ElecNode × ℚ) →
      List ElecNode × SearchOutcome
  | [], nodes, best => (nodes, .best best)
  | f :: rest, nodes, best =>
    match findWithIndex (fun n => n.id == NodeId.pillar f.pick_id) nodes 0 with
    | some (i, existingPillar) =>
      if pid ∈ existingPillar.properties then (nodes, .early existingPillar)
      else
        pillarLoop eng pid rest nodes
          (updateBest best i existingPillar (eng.distToFrontage existingPillar.position))
    | none =>
      let newPillarNode : ElecNode :=
        { id := .pillar f.pick_id, nodeType := "pillar", position := f.position,
          properties := [], side := none, isPotential := false, isPillar := true }
      pillarLoop eng pid rest (nodes ++ [newPillarNode])
        (updateBest best nodes.length newPillarNode
          (eng.distToFrontage newPillarNode.position))

/-- Served-list growth: the parcel id is appended only when absent. -/
def pushPropertyIfAbsent (pid : JSValue) (n : ElecNode) : ElecNode :=
  if pid ∈ n.properties then n else { n with properties := n.properties ++ [pid] }

/-- In-place update of the registry entry at an index, modelling mutation of
the object the source holds a reference to. -/
def modifyAt (f : ElecNode → ElecNode) : List ElecNode → Nat → List ElecNode
  | [], _ => []
  | n :: rest, 0 => f n :: rest
  | n :: rest, i + 1 => n :: modifyAt f rest i

/-- Embedding of the nearby-node search: the in-memory scan, then the pillar
pass, then - when a best candidate exists - the served-list push on that
candidate; the updated registry is returned alongside the result. -/
def findNearbyConnectionNode (eng : NodeEngine) (pid : JSValue) (nodes : List ElecNode) :
    Option ElecNode × List ElecNode :=
  match scanNodes eng pid nodes 0 none with
  | .early n => (some n, nodes)
  | .best b0 =>
    let pr :=
      match eng.pillarQuery with
      | none => (nodes, SearchOutcome.best b0)
      | some fs => pillarLoop eng pid fs nodes b0
    match pr with
    | (nodes1, .early n) => (some n, nodes1)
    | (nodes1, .best none) => (none, nodes1)
    | (nodes1, .best (some (i, n, _))) =>
      (some (pushPropertyIfAbsent pid n), modifyAt (pushPropertyIfAbsent pid) nodes1 i)

/-- The pruning filter applied to rendered graphics: a potential-flagged
graphic whose comma-joined served list, split back on ", ", contains the
string form of the parcel id. -/
def potentialGraphicMatches (pid : JSValue) (g : NodeGraphic) : Bool :=
  g.isPotential && (g.propertiesStr.splitOn ", ").contains pid.jsToString

/-- Embedding of the per-parcel potential-node pruning: every potential node
whose served list includes the parcel id leaves the registry, and every
matching potential graphic leaves the map layer. -/
def removePotentialNodesForProperty (pid : JSValue) (st : ElectricalState) :
    ElectricalState :=
  { st with
      electricalNodes := st.electricalNodes.filter
        (fun n => !(n.isPotential && decide (pid ∈ n.properties)))
      electricalGraphics := st.electricalGraphics.filter
        (fun g => !(potentialGraphicMatches pid g)) }

/-- Embedding of node construction: a fresh generated id, the kind string
chosen by the potential flag, the single served parcel, and the side label. -/
def createElectricalNode (position : GeomPoint) (polygonId : JSValue) (side : Option String)
    (isPotential : Bool) (freshIndex : Nat) : ElecNode :=
  { id := .generated freshIndex isPotential
    nodeType := if isPotential then "potential_service_point" else "service_point"
    position := position
    properties := [polygonId]
    side := side
    isPotential := isPotential
    isPillar := false }

/-- Embedding of potential-node creation: prune the parcel's previous
potential nodes first, then create the node at the first-segment right-side
position and append it to the registry (rendering is deferred to the
visualization pass). -/
def createAndRenderPotentialNode (eng : NodeEngine) (polygonId : JSValue)
    (st : ElectricalState) : ElecNode × ElectricalState :=
  let st1 := removePotentialNodesForProperty polygonId st
  let potentialNode :=
    createElectricalNode eng.chosenPosition polygonId (some "right") true st1.nextNodeIndex
  (potentialNode,
    { st1 with
        electricalNodes := st1.electricalNodes ++ [potentialNode]
        nextNodeIndex := st1.nextNodeIndex + 1 })

/-- Embedding of node assignment for a parcel: null on empty frontage;
otherwise the nearby-node search runs, a found node is returned after the
parcel's potential nodes are pruned, and with no shareable candidate a fresh
potential node is created and returned. -/
def generateOrFindConnectionNode {FL : Type} (eng : NodeEngine) (attrs : ParcelAttrs)
    (frontageLines : List FL) (st : ElectricalState) : Option ElecNode × ElectricalState :=
  if frontageLines.isEmpty then (none, st)
  else
    let polygonId := resolvePolygonId attrs
    let res := findNearbyConnectionNode eng polygonId st.electricalNodes
    match res.1 with
    | some nearbyNode =>
      (some nearbyNode,
        removePotentialNodesForProperty polygonId { st with electricalNodes := res.2 })
    | none =>
      let cr := createAndRenderPotentialNode eng polygonId { st with electricalNodes := res.2 }
      (some cr.1, cr.2)

/-! ### Helper lemmas on the registry search -/

/-- Validity of a best-candidate accumulator with respect to the registry:
the index addresses exactly the stored node value, which does not yet serve
the parcel and is not potential. -/
def BestValid (pid : JSValue) (nodes : List ElecNode) :
    Option (Nat × ElecNode × ℚ) → Prop
  | none => True
  | some (i, n, _) => nodes[i]? = some n ∧ pid ∉ n.properties ∧ n.isPotential = false

theorem updateBest_ne_none (b : Option (Nat × ElecNode × ℚ)) (i : Nat) (n : ElecNode)
    (d : ℚ) : updateBest b i n d ≠ none := by
  cases b with
  | none => simp [updateBest]
  | some x =>
      obtain ⟨j, m, d0⟩ := x
      simp only [updateBest]
      split <;> simp

theorem BestValid_updateBest (pid : JSValue) (nodes : List ElecNode)
    (b : Option (Nat × ElecNode × ℚ)) (i : Nat) (n : ElecNode) (d : ℚ)
    (hb : BestValid pid nodes b) (hi : nodes[i]? = some n)
    (hn : pid ∉ n.properties) (hp : n.isPotential = false) :
    BestValid pid nodes (updateBest b i n d) := by
  cases b with
  | none => exact ⟨hi, hn, hp⟩
  | some x =>
      obtain ⟨j, m, d0⟩ := x
      simp only [updateBest]
      split
      · exact ⟨hi, hn, hp⟩
      · exact hb

theorem BestValid_append (pid : JSValue) (nodes ext : List ElecNode)
    (b : Option (Nat × ElecNode × ℚ)) (hb : BestValid pid nodes b) :
    BestValid pid (nodes ++ ext) b := by
  match b with
  | none => trivial
  | some (i, n, d) =>
      obtain ⟨hi, hn, hp⟩ := hb
      refine ⟨?_, hn, hp⟩
      have hlt : i < nodes.length := by
        by_contra hge
        rw [List.getElem?_eq_none (by omega)] at hi
        cases hi
      rw [List.getElem?_append]
      simp [hlt, hi]

theorem scanNodes_spec (eng : NodeEngine) (pid : JSValue) (nodes : List ElecNode) :
    ∀ (l : List ElecNode) (i : Nat) (b : Option (Nat × ElecNode × ℚ)),
      (∀ k, l[k]? = nodes[i + k]?) →
      (∀ n ∈ l, pid ∉ n.properties) →
      BestValid pid nodes b →
      ∃ b', scanNodes eng pid l i b = .best b' ∧ BestValid pid nodes b' := by
  intro l
  induction l with
  | nil => intro i b _ _ hb; exact ⟨b, rfl, hb⟩
  | cons n rest ih =>
      intro i b hsuffix hfree hb
      have hrest : ∀ k, rest[k]? = nodes[(i + 1) + k]? := by
        intro k
        have := hsuffix (k + 1)
        simpa [Nat.add_assoc, Nat.add_comm 1 k] using this
      have hhead : nodes[i]? = some n := by
        have := hsuffix 0
        simpa using this.symm
      have hfree' : ∀ m ∈ rest, pid ∉ m.properties :=
        fun m hm => hfree m (List.mem_cons_of_mem n hm)
      have hnfree : pid ∉ n.properties := hfree n (List.mem_cons_self n rest)
      unfold scanNodes
      by_cases hpot : n.isPotential
      · rw [if_pos hpot]
        exact ih (i + 1) b hrest hfree' hb
      · rw [if_neg hpot, if_neg hnfree]
        by_cases hbuf : eng.inBuffer n.position
        · rw [if_pos hbuf]
          exact ih (i + 1) _ hrest hfree'
            (BestValid_updateBest pid nodes b i n _ hb hhead hnfree
              (Bool.not_eq_true _ ▸ hpot))
        · rw [if_neg hbuf]
          exact ih (i + 1) b hrest hfree' hb

theorem scanNodes_some_ne_best_none (eng : NodeEngine) (pid : JSValue) :
    ∀ (l : List ElecNode) (i : Nat) (x : Nat × ElecNode × ℚ),
      scanNodes eng pid l i (some x) ≠ .best none := by
  intro l
  induction l with
  | nil => intro i x h; cases h
  | cons n rest ih =>
      intro i x
      unfold scanNodes
      by_cases hpot : n.isPotential
      · rw [if_pos hpot]; exact ih (i + 1) x
      · rw [if_neg hpot]
        by_cases hserve : pid ∈ n.properties
        · rw [if_pos hserve]; intro h; cases h
        · rw [if_neg hserve]
          by_cases hbuf : eng.inBuffer n.position
          · rw [if_pos hbuf]
            have hne := updateBest_ne_none (some x) i n (eng.distToFrontage n.position)
            match hub : updateBest (some x) i n (eng.distToFrontage n.position) with
            | none => exact absurd hub hne
            | some y => exact ih (i + 1) y
          · rw [if_neg hbuf]; exact ih (i + 1) x

theorem scanNodes_best_none_iff (eng : NodeEngine) (pid : JSValue) :
    ∀ (l : List ElecNode) (i : Nat),
      scanNodes eng pid l i none = .best none ↔
        ∀ n ∈ l, n.isPotential = true ∨
          (pid ∉ n.properties ∧ eng.inBuffer n.position = false) := by
  intro l
  induction l with
  | nil => intro i; simp [scanNodes]
  | cons n rest ih =>
      intro i
      unfold scanNodes
      by_cases hpot : n.isPotential
      · rw [if_pos hpot]
        rw [ih (i + 1)]
        constructor
        · intro h m hm
          rcases List.mem_cons.mp hm with hm | hm
          · exact Or.inl (hm ▸ hpot)
          · exact h m hm
        · intro h m hm
          exact h m (List.mem_cons_of_mem n hm)
      · rw [if_neg hpot]
        by_cases hserve : pid ∈ n.properties
        · rw [if_pos hserve]
          constructor
          · intro h; cases h
          · intro h
            rcases h n (List.mem_cons_self n rest) with hc | hc
            · exact absurd hc (by simpa using hpot)
            · exact absurd hserve hc.1
        · rw [if_neg hserve]
          by_cases hbuf : eng.inBuffer n.position
          · rw [if_pos hbuf]
            constructor
            · intro h
              exact absurd h (scanNodes_some_ne_best_none eng pid rest (i + 1) _)
            · intro h
              rcases h n (List.mem_cons_self n rest) with hc | hc
              · exact absurd hc (by simpa using hpot)
              · rw [hbuf] at hc; exact absurd hc.2 (by simp)
          · rw [if_neg hbuf]
            rw [ih (i + 1)]
            constructor
            · intro h m hm
              rcases List.mem_cons.mp hm with hm | hm
              · subst hm
                exact Or.inr ⟨hserve, Bool.not_eq_true _ ▸ hbuf⟩
              · exact h m hm
            · intro h m hm
              exact h m (List.mem_cons_of_mem n hm)

theorem scanNodes_finds_unique_server (eng : NodeEngine) (pid : JSValue) (n0 : ElecNode)
    (hp0 : n0.isPotential = false) (hs0 : pid ∈ n0.properties) :
    ∀ (l : List ElecNode) (i : Nat) (b : Option (Nat × ElecNode × ℚ)),
      n0 ∈ l →
      (∀ n ∈ l, pid ∈ n.properties → n = n0) →
      scanNodes eng pid l i b = .early n0 := by
  intro l
  induction l with
  | nil => intro i b h; cases h
  | cons n rest ih =>
      intro i b hmem huniq
      unfold scanNodes
      by_cases hpot : n.isPotential
      · rw [if_pos hpot]
        have hne : n ≠ n0 := by
          intro he
          rw [he, hp0] at hpot
          cases hpot
        have hmem' : n0 ∈ rest := by
          rcases List.mem_cons.mp hmem with h | h
          · exact absurd h.symm hne
          · exact h
        exact ih (i + 1) b hmem' (fun m hm hs => huniq m (List.mem_cons_of_mem n hm) hs)
      · rw [if_neg hpot]
        by_cases hserve : pid ∈ n.properties
        · rw [if_pos hserve]
          rw [huniq n (List.mem_cons_self n rest) hserve]
        · rw [if_neg hserve]
          have hne : n ≠ n0 := by
            intro he
            rw [he] at hserve
            exact hserve hs0
          have hmem' : n0 ∈ rest := by
            rcases List.mem_cons.mp hmem with h | h
            · exact absurd h.symm hne
            · exact h
          have huniq' : ∀ m ∈ rest, pid ∈ m.properties → m = n0 :=
            fun m hm hs => huniq m (List.mem_cons_of_mem n hm) hs
          by_cases hbuf : eng.inBuffer n.position
          · rw [if_pos hbuf]
            exact ih (i + 1) _ hmem' huniq'
          · rw [if_neg hbuf]
            exact ih (i + 1) b hmem' huniq'

theorem findWithIndex_some_spec (p : ElecNode → Bool) :
    ∀ (l : List ElecNode) (i0 i : Nat) (n : ElecNode),
      findWithIndex p l i0 = some (i, n) →
      ∃ k, i = i0 + k ∧ l[k]? = some n ∧ p n = true := by
  intro l
  induction l with
  | nil => intro i0 i n h; cases h
  | cons m rest ih =>
      intro i0 i n h
      unfold findWithIndex at h
      by_cases hp : p m
      · rw [if_pos hp] at h
        obtain ⟨hi, hn⟩ := Prod.mk.injEq .. ▸ Option.some.inj h
        exact ⟨0, by omega, by simp [← hn], hn ▸ hp⟩
      · rw [if_neg hp] at h
        obtain ⟨k, hk, hget, hpn⟩ := ih (i0 + 1) i n h
        exact ⟨k + 1, by omega, by simpa using hget, hpn⟩

theorem findWithIndex_none_iff (p : ElecNode → Bool) :
    ∀ (l : List ElecNode) (i0 : Nat),
      findWithIndex p l i0 = none ↔ ∀ n ∈ l, p n = false := by
  intro l
  induction l with
  | nil => intro i0; simp [findWithIndex]
  | cons m rest ih =>
      intro i0
      unfold findWithIndex
      by_cases hp : p m
      · rw [if_pos hp]
        simp only [List.mem_cons]
        constructor
        · intro h; cases h
        · intro h
          have := h m (Or.inl rfl)
          rw [hp] at this
          cases this
      · rw [if_neg hp]
        rw [ih (i0 + 1)]
        constructor
        · intro h n hn
          rcases List.mem_cons.mp hn with h1 | h1
          · subst h1; exact Bool.not_eq_true _ ▸ hp
          · exact h n h1
        · intro h n hn
          exact h n (List.mem_cons_of_mem m hn)

theorem modifyAt_getElem? (f : ElecNode → ElecNode) :
    ∀ (l : List ElecNode) (i j : Nat),
      (modifyAt f l i)[j]? = if j = i then (l[j]?).map f else l[j]? := by
  intro l
  induction l with
  | nil => intro i j; simp [modifyAt]
  | cons n rest ih =>
      intro i j
      cases i with
      | zero =>
          cases j with
          | zero => simp [modifyAt]
          | succ j' => simp [modifyAt]
      | succ i' =>
          cases j with
          | zero => simp [modifyAt]
          | succ j' =>
              simp only [modifyAt, List.getElem?_cons_succ]
              rw [ih i' j']
              by_cases hji : j' = i'
              · simp [hji]
              · simp [hji, fun h => hji (Nat.succ_injective h)]

theorem modifyAt_mem (f : ElecNode → ElecNode) (l : List ElecNode) (i : Nat)
    (m : ElecNode) (hm : m ∈ modifyAt f l i) :
    m ∈ l ∨ ∃ n, l[i]? = some n ∧ m = f n := by
  obtain ⟨j, hj⟩ := List.get?_of_mem hm
  rw [List.get?_eq_getElem?] at hj
  rw [modifyAt_getElem? f l i j] at hj
  by_cases hji : j = i
  · rw [if_pos hji] at hj
    match hl : l[j]? with
    | none => rw [hl] at hj; cases hj
    | some n =>
        rw [hl] at hj
        exact Or.inr ⟨n, hji ▸ hl, (Option.some.inj hj).symm⟩
  · rw [if_neg hji] at hj
    exact Or.inl (List.getElem?_mem hj)

theorem pushPropertyIfAbsent_id (pid : JSValue) (n : ElecNode) :
    (pushPropertyIfAbsent pid n).id = n.id := by
  unfold pushPropertyIfAbsent
  split <;> rfl

theorem pushPropertyIfAbsent_absent (pid : JSValue) (n : ElecNode)
    (h : pid ∉ n.properties) :
    (pushPropertyIfAbsent pid n).properties = n.properties ++ [pid] := by
  unfold pushPropertyIfAbsent
  rw [if_neg h]

theorem pushPropertyIfAbsent_potential (pid : JSValue) (n : ElecNode) :
    (pushPropertyIfAbsent pid n).isPotential = n.isPotential := by
  unfold pushPropertyIfAbsent
  split <;> rfl

theorem pushPropertyIfAbsent_position (pid : JSValue) (n : ElecNode) :
    (pushPropertyIfAbsent pid n).position = n.position := by
  unfold pushPropertyIfAbsent
  split <;> rfl

theorem pillarLoop_spec (eng : NodeEngine) (pid : JSValue) :
    ∀ (fs : List PillarFeature) (nodes : List ElecNode)
      (b : Option (Nat × ElecNode × ℚ)),
      (∀ n ∈ nodes, pid ∉ n.properties) →
      (∀ n ∈ nodes, ∀ v, n.id = NodeId.pillar v → n.isPotential = false) →
      BestValid pid nodes b →
      ∃ newNodes b',
        pillarLoop eng pid fs nodes b = (nodes ++ newNodes, .best b') ∧
        BestValid pid (nodes ++ newNodes) b' ∧
        (∀ n ∈ newNodes, n.properties = [] ∧ n.isPillar = true ∧ n.isPotential = false) ∧
        (b' = none → b = none ∧ newNodes = [] ∧ fs = []) ∧
        (∀ f ∈ fs, (∀ n ∈ nodes, n.id ≠ NodeId.pillar f.pick_id) →
          ∃ n ∈ newNodes, n.id = NodeId.pillar f.pick_id) := by
  intro fs
  induction fs with
  | nil =>
      intro nodes b _ _ hb
      refine ⟨[], b, ?_, ?_, ?_, ?_, ?_⟩
      · simp [pillarLoop]
      · simpa using hb
      · intro n hn; cases hn
      · intro h; exact ⟨h, rfl, rfl⟩
      · intro f hf; cases hf
  | cons f rest ih =>
      intro nodes b hfree hpillarpot hb
      unfold pillarLoop
      match hfind : findWithIndex (fun n => n.id == NodeId.pillar f.pick_id) nodes 0 with
      | some (i, existingPillar) =>
          dsimp only
          obtain ⟨k, hk, hget, hpn⟩ := findWithIndex_some_spec _ nodes 0 i existingPillar hfind
          have hik : k = i := by omega
          rw [hik] at hget
          have hmemex : existingPillar ∈ nodes := List.getElem?_mem hget
          have hexfree : pid ∉ existingPillar.properties := hfree existingPillar hmemex
          have hexid : existingPillar.id = NodeId.pillar f.pick_id := by
            simpa using hpn
          have hexpot : existingPillar.isPotential = false :=
            hpillarpot existingPillar hmemex f.pick_id hexid
          rw [if_neg hexfree]
          have hb2 := BestValid_updateBest pid nodes b i existingPillar
            (eng.distToFrontage existingPillar.position) hb hget hexfree hexpot
          obtain ⟨newNodes, b', heq, hvalid, hnew, hnone, huntracked⟩ :=
            ih nodes _ hfree hpillarpot hb2
          refine ⟨newNodes, b', heq, hvalid, hnew, ?_, ?_⟩
          · intro hb'
            obtain ⟨hub, _, _⟩ := hnone hb'
            exact absurd hub (updateBest_ne_none b i existingPillar _)
          · intro f' hf' huntr
            rcases List.mem_cons.mp hf' with h1 | h1
            · subst h1
              exact absurd hexid (huntr existingPillar hmemex)
            · exact huntracked f' h1 huntr
      | none =>
          dsimp only
          set newPillarNode : ElecNode :=
            { id := .pillar f.pick_id, nodeType := "pillar", position := f.position,
              properties := [], side := none, isPotential := false, isPillar := true }
            with hnewdef
          have hfree2 : ∀ n ∈ nodes ++ [newPillarNode], pid ∉ n.properties := by
            intro n hn
            rcases List.mem_append.mp hn with h1 | h1
            · exact hfree n h1
            · rw [List.mem_singleton.mp h1]
              simp [hnewdef]
          have hpot2 : ∀ n ∈ nodes ++ [newPillarNode], ∀ v,
              n.id = NodeId.pillar v → n.isPotential = false := by
            intro n hn v hv
            rcases List.mem_append.mp hn with h1 | h1
            · exact hpillarpot n h1 v hv
            · rw [List.mem_singleton.mp h1]
          have hgetnew : (nodes ++ [newPillarNode])[nodes.length]? = some newPillarNode :=
            List.getElem?_concat_length nodes newPillarNode
          have hb2 : BestValid pid (nodes ++ [newPillarNode])
              (updateBest b nodes.length newPillarNode
                (eng.distToFrontage newPillarNode.position)) :=
            BestValid_updateBest pid (nodes ++ [newPillarNode]) b nodes.length newPillarNode
              _ (BestValid_append pid nodes [newPillarNode] b hb) hgetnew
              (by simp [hnewdef]) rfl
          obtain ⟨newNodes2, b', heq, hvalid, hnew, hnone, huntracked⟩ :=
            ih (nodes ++ [newPillarNode]) _ hfree2 hpot2 hb2
          refine ⟨newPillarNode :: newNodes2, b', ?_, ?_, ?_, ?_, ?_⟩
          · rw [heq]
            simp
          · simpa using hvalid
          · intro n hn
            rcases List.mem_cons.mp hn with h1 | h1
            · subst h1; exact ⟨rfl, rfl, rfl⟩
            · exact hnew n h1
          · intro hb'
            obtain ⟨hub, _, _⟩ := hnone hb'
            exact absurd hub (updateBest_ne_none b nodes.length newPillarNode _)
          · intro f' hf' huntr
            by_cases hsame : f'.pick_id = f.pick_id
            · exact ⟨newPillarNode, List.mem_cons_self _ _, by rw [hnewdef, hsame]⟩
            · rcases List.mem_cons.mp hf' with h1 | h1
              · subst h1
                exact absurd rfl hsame
              · have huntr2 : ∀ n ∈ nodes ++ [newPillarNode],
                    n.id ≠ NodeId.pillar f'.pick_id := by
                  intro n hn
                  rcases List.mem_append.mp hn with h2 | h2
                  · exact huntr n h2
                  · rw [List.mem_singleton.mp h2]
                    intro hid
                    simp only [hnewdef] at hid
                    exact hsame (by injection hid with h3; exact h3.symm) 
                obtain ⟨n, hn1, hn2⟩ := huntracked f' h1 huntr2
                exact ⟨n, List.mem_cons_of_mem _ hn1, hn2⟩

theorem findNearby_spec (eng : NodeEngine) (pid : JSValue) (nodes : List ElecNode)
    (hfree : ∀ n ∈ nodes, pid ∉ n.properties)
    (hpillarpot : ∀ n ∈ nodes, ∀ v, n.id = NodeId.pillar v → n.isPotential = false) :
    ((findNearbyConnectionNode eng pid nodes).1 = none →
      (findNearbyConnectionNode eng pid nodes).2 = nodes ∧
      scanNodes eng pid nodes 0 none = .best none ∧
      (eng.pillarQuery = none ∨ eng.pillarQuery = some []))
    ∧ (∀ n1, (findNearbyConnectionNode eng pid nodes).1 = some n1 →
        ∃ newNodes i nbest,
          (∀ n ∈ newNodes, n.properties = [] ∧ n.isPillar = true ∧ n.isPotential = false) ∧
          (findNearbyConnectionNode eng pid nodes).2 =
            modifyAt (pushPropertyIfAbsent pid) (nodes ++ newNodes) i ∧
          n1 = pushPropertyIfAbsent pid nbest ∧
          (nodes ++ newNodes)[i]? = some nbest ∧ pid ∉ nbest.properties ∧
          nbest.isPotential = false) := by
  obtain ⟨b0, hscan, hb0⟩ := scanNodes_spec eng pid nodes nodes 0 none
    (fun k => by simp) hfree trivial
  cases hq : eng.pillarQuery with
  | none =>
      cases b0 with
      | none =>
          have hcomp : findNearbyConnectionNode eng pid nodes = (none, nodes) := by
            unfold findNearbyConnectionNode
            rw [hscan, hq]
          rw [hcomp]
          constructor
          · intro _
            exact ⟨rfl, hscan, Or.inl rfl⟩
          · intro n1 h1
            cases h1
      | some x =>
          obtain ⟨i, nbest, d⟩ := x
          obtain ⟨hget, hfreeb, hpotb⟩ := hb0
          have hcomp : findNearbyConnectionNode eng pid nodes =
              (some (pushPropertyIfAbsent pid nbest),
                modifyAt (pushPropertyIfAbsent pid) nodes i) := by
            unfold findNearbyConnectionNode
            rw [hscan, hq]
          rw [hcomp]
          constructor
          · intro h; cases h
          · intro n1 h1
            refine ⟨[], i, nbest, ?_, ?_, (Option.some.inj h1).symm, ?_, hfreeb, hpotb⟩
            · intro n hn; cases hn
            · rw [List.append_nil]
            · rw [List.append_nil]; exact hget
  | some fs =>
      obtain ⟨newNodes, b', heq, hvalid, hnew, hnone, _⟩ :=
        pillarLoop_spec eng pid fs nodes b0 hfree hpillarpot hb0
      cases b' with
      | none =>
          obtain ⟨hb0none, hnn, hfs⟩ := hnone rfl
          have hcomp : findNearbyConnectionNode eng pid nodes = (none, nodes ++ newNodes) := by
            unfold findNearbyConnectionNode
            rw [hscan, hq]
            dsimp only
            rw [heq]
          rw [hcomp]
          constructor
          · intro _
            refine ⟨by rw [hnn]; simp, ?_, Or.inr ?_⟩
            · rw [hb0none] at hscan; exact hscan
            · rw [hfs]
          · intro n1 h1
            cases h1
      | some x =>
          obtain ⟨i, nbest, d⟩ := x
          obtain ⟨hget, hfreeb, hpotb⟩ := hvalid
          have hcomp : findNearbyConnectionNode eng pid nodes =
              (some (pushPropertyIfAbsent pid nbest),
                modifyAt (pushPropertyIfAbsent pid) (nodes ++ newNodes) i) := by
            unfold findNearbyConnectionNode
            rw [hscan, hq]
            dsimp only
            rw [heq]
          rw [hcomp]
          constructor
          · intro h; cases h
          · intro n1 h1
            exact ⟨newNodes, i, nbest, hnew, rfl, (Option.some.inj h1).symm, hget,
              hfreeb, hpotb⟩

theorem pushPropertyIfAbsent_isPillar (pid : JSValue) (n : ElecNode) :
    (pushPropertyIfAbsent pid n).isPillar = n.isPillar := by
  unfold pushPropertyIfAbsent
  split <;> rfl

/-! ### Theorems: potential-node uniqueness (C9) -/

/-- C9. Creating a potential node first removes, from the registry and from
the map layer, every potential node previously recorded for the parcel: after
the call the registry holds exactly one potential node serving the parcel
(the new one) and no potential graphic matching the parcel survives on the
layer. -/
theorem potential_node_uniqueness (eng : NodeEngine) (pid : JSValue) (st : ElectricalState) :
    (createAndRenderPotentialNode eng pid st).2.electricalNodes.filter
        (fun n => n.isPotential && decide (pid ∈ n.properties))
      = [(createAndRenderPotentialNode eng pid st).1]
    ∧ (createAndRenderPotentialNode eng pid st).2.electricalGraphics.filter
        (fun g => potentialGraphicMatches pid g) = [] := by
  unfold createAndRenderPotentialNode removePotentialNodesForProperty
  dsimp only
  constructor
  · rw [List.filter_append, List.filter_filter]
    have h1 : st.electricalNodes.filter
        (fun a => (a.isPotential && decide (pid ∈ a.properties))
          && !(a.isPotential && decide (pid ∈ a.properties))) = [] := by
      simp
    rw [h1]
    simp [createElectricalNode]
  · rw [List.filter_filter]
    simp

/-! ### Theorems: pillar registration side effect (C10) -/

/-- C10. When the pillar query runs during a node assignment for a parcel no
node yet serves, every queried pillar that was untracked in the registry is
present afterwards as a pillar node, with an empty served list unless it is
the returned best candidate, in which case its served list is exactly the
parcel; and the only node of the resulting registry serving the parcel is the
returned one - so a single call can register several pillars of which at most
one gains the parcel. -/
theorem pillar_query_side_effect (eng : NodeEngine) (pid : JSValue) (nodes : List ElecNode)
    (fs : List PillarFeature)
    (hq : eng.pillarQuery = some fs)
    (hfree : ∀ n ∈ nodes, pid ∉ n.properties)
    (hpillarpot : ∀ n ∈ nodes, ∀ v, n.id = NodeId.pillar v → n.isPotential = false) :
    (∀ f ∈ fs, (∀ n ∈ nodes, n.id ≠ NodeId.pillar f.pick_id) →
      ∃ n ∈ (findNearbyConnectionNode eng pid nodes).2,
        n.id = NodeId.pillar f.pick_id ∧ n.isPillar = true ∧
        (n.properties = [] ∨
          ((findNearbyConnectionNode eng pid nodes).1 = some n ∧ n.properties = [pid])))
    ∧ (∀ n ∈ (findNearbyConnectionNode eng pid nodes).2, pid ∈ n.properties →
        (findNearbyConnectionNode eng pid nodes).1 = some n) := by
  obtain ⟨b0, hscan, hb0⟩ := scanNodes_spec eng pid nodes nodes 0 none
    (fun k => by simp) hfree trivial
  obtain ⟨newNodes, b', heq, hvalid, hnew, hnone, huntracked⟩ :=
    pillarLoop_spec eng pid fs nodes b0 hfree hpillarpot hb0
  have hfree1 : ∀ n ∈ nodes ++ newNodes, pid ∉ n.properties := by
    intro n hn
    rcases List.mem_append.mp hn with h1 | h1
    · exact hfree n h1
    · rw [(hnew n h1).1]
      simp
  cases b' with
  | none =>
      have hcomp : findNearbyConnectionNode eng pid nodes = (none, nodes ++ newNodes) := by
        unfold findNearbyConnectionNode
        rw [hscan, hq]
        dsimp only
        rw [heq]
      rw [hcomp]
      constructor
      · intro f hf huntr
        obtain ⟨n, hn1, hn2⟩ := huntracked f hf huntr
        exact ⟨n, List.mem_append_right nodes hn1, hn2, (hnew n hn1).2.1,
          Or.inl (hnew n hn1).1⟩
      · intro n hn hserve
        exact absurd hserve (hfree1 n hn)
  | some x =>
      obtain ⟨i, nbest, d⟩ := x
      obtain ⟨hget, hfreeb, hpotb⟩ := hvalid
      have hcomp : findNearbyConnectionNode eng pid nodes =
          (some (pushPropertyIfAbsent pid nbest),
            modifyAt (pushPropertyIfAbsent pid) (nodes ++ newNodes) i) := by
        unfold findNearbyConnectionNode
        rw [hscan, hq]
        dsimp only
        rw [heq]
      rw [hcomp]
      constructor
      · intro f hf huntr
        obtain ⟨nnew, hn1, hn2⟩ := huntracked f hf huntr
        have hmem1 : nnew ∈ nodes ++ newNodes := List.mem_append_right nodes hn1
        obtain ⟨j, hj0⟩ := List.get?_of_mem hmem1
        rw [List.get?_eq_getElem?] at hj0
        by_cases hji : j = i
        · subst hji
          have hnb : nnew = nbest := Option.some.inj (hj0.symm.trans hget)
          have hfin : (modifyAt (pushPropertyIfAbsent pid) (nodes ++ newNodes) j)[j]? =
              some (pushPropertyIfAbsent pid nbest) := by
            rw [modifyAt_getElem? (pushPropertyIfAbsent pid) (nodes ++ newNodes) j j]
            rw [if_pos rfl, hget]
            rfl
          refine ⟨pushPropertyIfAbsent pid nbest, List.getElem?_mem hfin, ?_, ?_, ?_⟩
          · rw [pushPropertyIfAbsent_id, ← hnb]
            exact hn2
          · rw [pushPropertyIfAbsent_isPillar, ← hnb]
            exact (hnew nnew hn1).2.1
          · refine Or.inr ⟨rfl, ?_⟩
            rw [pushPropertyIfAbsent_absent pid nbest hfreeb, ← hnb, (hnew nnew hn1).1]
            rfl
        · have hfin : (modifyAt (pushPropertyIfAbsent pid) (nodes ++ newNodes) i)[j]? =
              some nnew := by
            rw [modifyAt_getElem? (pushPropertyIfAbsent pid) (nodes ++ newNodes) i j]
            rw [if_neg hji]
            exact hj0
          exact ⟨nnew, List.getElem?_mem hfin, hn2, (hnew nnew hn1).2.1,
            Or.inl (hnew nnew hn1).1⟩
      · intro n hn hserve
        rcases modifyAt_mem (pushPropertyIfAbsent pid) (nodes ++ newNodes) i n hn with
          h1 | ⟨m, hm1, hm2⟩
        · exact absurd hserve (hfree1 n h1)
        · have hmb : m = nbest := Option.some.inj (hm1.symm.trans hget)
          rw [hm2, hmb]

/-- Node engine for the pillar-side-effect witness: two queried pillars, the
first closer to the frontage than the second. -/
def pillarWitnessEngine : NodeEngine :=
  { inBuffer := fun _ => false
    distToFrontage := fun p => p.x
    pillarQuery := some
      [{ pick_id := .num 1, position := { x := 0, y := 0 } },
       { pick_id := .num 2, position := { x := 9, y := 0 } }]
    chosenPosition := { x := 0, y := 0 } }

/-- Witness for the pillar-side-effect theorem on an empty registry: both
queried pillars are untracked, both are registered, and the returned node is
the nearer pillar carrying the parcel id. -/
theorem pillar_query_side_effect_witness :
    (findNearbyConnectionNode pillarWitnessEngine (.num 7) []).1 =
      some { id := .pillar (.num 1), nodeType := "pillar", position := { x := 0, y := 0 },
             properties := [.num 7], side := none, isPotential := false, isPillar := true } := by
  have h := pillar_query_side_effect pillarWitnessEngine (.num 7) []
    [{ pick_id := .num 1, position := { x := 0, y := 0 } },
     { pick_id := .num 2, position := { x := 9, y := 0 } }]
    rfl (fun n hn => absurd hn (List.not_mem_nil n))
    (fun n hn => absurd hn (List.not_mem_nil n))
  exact h.2
    { id := .pillar (.num 1), nodeType := "pillar", position := { x := 0, y := 0 },
      properties := [.num 7], side := none, isPotential := false, isPillar := true }
    (by decide) (by decide)

/-! ### Theorems: repeated assignment (C1) -/

/-- Node engine for the repeated-assignment counterexample: nothing shareable
anywhere - no node in the buffer and no pillar returned by the query. -/
def assignCexEngine : NodeEngine :=
  { inBuffer := fun _ => false
    distToFrontage := fun _ => 0
    pillarQuery := some []
    chosenPosition := { x := 3, y := 4 } }

/-- Empty registry state. -/
def emptyElectricalState : ElectricalState :=
  { electricalNodes := [], electricalGraphics := [], nextNodeIndex := 0 }

/-- C1 counterexample. With no shareable node, the first assignment creates a
potential node and the second assignment does not return that same node: it
removes the first potential node and returns a freshly created one with a new
identifier. -/
theorem assign_twice_not_same_node_cex :
    ¬((generateOrFindConnectionNode assignCexEngine sampleParcelAttrs [()]
        emptyElectricalState).1 =
      (generateOrFindConnectionNode assignCexEngine sampleParcelAttrs [()]
        (generateOrFindConnectionNode assignCexEngine sampleParcelAttrs [()]
          emptyElectricalState).2).1) := by
  decide

/-- C1 amended. For a parcel no node yet serves, a first assignment with
non-empty frontage always returns a node whose served list holds the parcel
exactly once. When that node is not potential (a shared node or pillar), an
immediately repeated assignment returns the very same node. When it is a
potential node, the repeated assignment does not return the same node: it
prunes the first potential node and returns a freshly created potential node
with a new identifier, at the same chosen position and side, again serving
exactly the parcel. -/
theorem assign_twice_characterization
    (FL : Type) (eng : NodeEngine) (attrs : ParcelAttrs) (frontageLines : List FL)
    (st : ElectricalState)
    (hne : frontageLines ≠ [])
    (hfree : ∀ n ∈ st.electricalNodes, resolvePolygonId attrs ∉ n.properties)
    (hpillarpot : ∀ n ∈ st.electricalNodes, ∀ v,
      n.id = NodeId.pillar v → n.isPotential = false) :
    ∀ r1 st1 r2 st2,
      generateOrFindConnectionNode eng attrs frontageLines st = (r1, st1) →
      generateOrFindConnectionNode eng attrs frontageLines st1 = (r2, st2) →
      (∃ n1, r1 = some n1)
      ∧ ∀ n1, r1 = some n1 →
          n1.properties.count (resolvePolygonId attrs) = 1
          ∧ (n1.isPotential = false → r2 = some n1)
          ∧ (n1.isPotential = true →
              ∃ n2, r2 = some n2 ∧ n2.isPotential = true ∧ n2.position = n1.position
                ∧ n2.side = n1.side ∧ n2.properties = [resolvePolygonId attrs]
                ∧ n2.id ≠ n1.id) := by
  intro r1 st1 r2 st2 h1 h2
  have hie : frontageLines.isEmpty = false := by
    cases frontageLines with
    | nil => exact absurd rfl hne
    | cons a l => rfl
  have hienot : ¬(frontageLines.isEmpty = true) := by rw [hie]; simp
  unfold generateOrFindConnectionNode at h1 h2
  rw [if_neg hienot] at h1 h2
  dsimp only at h1 h2
  have hspec := findNearby_spec eng (resolvePolygonId attrs) st.electricalNodes hfree
    hpillarpot
  cases hres : (findNearbyConnectionNode eng (resolvePolygonId attrs) st.electricalNodes).1 with
  | some n1c =>
      -- first call found a shareable candidate and pushed the parcel onto it
      obtain ⟨newNodes, i, nbest, hnew, hsnd, hn1eq, hget, hfreeb, hpotb⟩ :=
        hspec.2 n1c hres
      rw [hres] at h1
      dsimp only at h1
      have hr1 : some n1c = r1 := congrArg Prod.fst h1
      have hst1 : removePotentialNodesForProperty (resolvePolygonId attrs)
          { st with electricalNodes :=
              (findNearbyConnectionNode eng (resolvePolygonId attrs) st.electricalNodes).2 }
          = st1 := congrArg Prod.snd h1
      have hfree1 : ∀ n ∈ st.electricalNodes ++ newNodes,
          resolvePolygonId attrs ∉ n.properties := by
        intro n hn
        rcases List.mem_append.mp hn with hx | hx
        · exact hfree n hx
        · rw [(hnew n hx).1]; simp
      have hst1nodes : st1.electricalNodes =
          (modifyAt (pushPropertyIfAbsent (resolvePolygonId attrs))
            (st.electricalNodes ++ newNodes) i).filter
            (fun n => !(n.isPotential && decide (resolvePolygonId attrs ∈ n.properties))) := by
        rw [← hst1]
        unfold removePotentialNodesForProperty
        dsimp only
        rw [hsnd]
      refine ⟨⟨n1c, hr1.symm⟩, ?_⟩
      intro n1 hn1
      have hn1c : n1 = n1c := by
        rw [← hr1] at hn1
        exact (Option.some.inj hn1).symm
      subst hn1c
      rw [hn1eq]
      have hcount : (pushPropertyIfAbsent (resolvePolygonId attrs) nbest).properties.count
          (resolvePolygonId attrs) = 1 := by
        rw [pushPropertyIfAbsent_absent _ nbest hfreeb]
        rw [List.count_append]
        rw [List.count_eq_zero.mpr hfreeb]
        simp
      refine ⟨hcount, ?_, ?_⟩
      · -- non-potential branch: the second call early-returns the same node
        intro hpot1
        have hserve1 : resolvePolygonId attrs ∈
            (pushPropertyIfAbsent (resolvePolygonId attrs) nbest).properties := by
          rw [pushPropertyIfAbsent_absent _ nbest hfreeb]
          simp
        have hfin_i : (modifyAt (pushPropertyIfAbsent (resolvePolygonId attrs))
            (st.electricalNodes ++ newNodes) i)[i]? =
            some (pushPropertyIfAbsent (resolvePolygonId attrs) nbest) := by
          rw [modifyAt_getElem?]
          rw [if_pos rfl, hget]
          rfl
        have hmem1 : pushPropertyIfAbsent (resolvePolygonId attrs) nbest ∈
            st1.electricalNodes := by
          rw [hst1nodes]
          refine List.mem_filter.mpr ⟨List.getElem?_mem hfin_i, ?_⟩
          rw [hpot1]
          simp
        have huniq : ∀ n ∈ st1.electricalNodes,
            resolvePolygonId attrs ∈ n.properties →
            n = pushPropertyIfAbsent (resolvePolygonId attrs) nbest := by
          intro n hn hs
          rw [hst1nodes] at hn
          have hn' := List.mem_of_mem_filter hn
          rcases modifyAt_mem _ _ _ n hn' with hx | ⟨m, hm1, hm2⟩
          · exact absurd hs (hfree1 n hx)
          · rw [hm2, Option.some.inj (hm1.symm.trans hget)]
        have hearly2 : scanNodes eng (resolvePolygonId attrs) st1.electricalNodes 0 none =
            .early (pushPropertyIfAbsent (resolvePolygonId attrs) nbest) := by
          apply scanNodes_finds_unique_server eng (resolvePolygonId attrs) _
            hpot1 hserve1 _ _ _ hmem1 huniq
        have hfind2 : findNearbyConnectionNode eng (resolvePolygonId attrs)
            st1.electricalNodes =
            (some (pushPropertyIfAbsent (resolvePolygonId attrs) nbest),
              st1.electricalNodes) := by
          unfold findNearbyConnectionNode
          rw [hearly2]
        rw [hfind2] at h2
        dsimp only at h2
        exact (congrArg Prod.fst h2).symm
      · -- potential branch is impossible: the pushed candidate is not potential
        intro hpot1
        rw [pushPropertyIfAbsent_potential] at hpot1
        rw [hpotb] at hpot1
        cases hpot1
  | none =>
      -- first call found nothing shareable and created a potential node
      obtain ⟨hsame, hscannone, hquery⟩ := hspec.1 hres
      rw [hres] at h1
      dsimp only at h1
      rw [hsame] at h1
      have hr1 : some (createAndRenderPotentialNode eng (resolvePolygonId attrs)
          { st with electricalNodes := st.electricalNodes }).1 = r1 :=
        congrArg Prod.fst h1
      have hst1 : (createAndRenderPotentialNode eng (resolvePolygonId attrs)
          { st with electricalNodes := st.electricalNodes }).2 = st1 :=
        congrArg Prod.snd h1
      have hn1val : (createAndRenderPotentialNode eng (resolvePolygonId attrs)
          { st with electricalNodes := st.electricalNodes }).1 =
          createElectricalNode eng.chosenPosition (resolvePolygonId attrs)
            (some "right") true st.nextNodeIndex := rfl
      have hst1nodes : st1.electricalNodes =
          st.electricalNodes.filter
            (fun n => !(n.isPotential && decide (resolvePolygonId attrs ∈ n.properties)))
          ++ [createElectricalNode eng.chosenPosition (resolvePolygonId attrs)
                (some "right") true st.nextNodeIndex] := by
        rw [← hst1]
        rfl
      have hst1next : st1.nextNodeIndex = st.nextNodeIndex + 1 := by
        rw [← hst1]
        rfl
      refine ⟨⟨_, hr1.symm⟩, ?_⟩
      intro n1 hn1
      have hn1c : n1 = createElectricalNode eng.chosenPosition (resolvePolygonId attrs)
          (some "right") true st.nextNodeIndex := by
        rw [← hr1] at hn1
        exact (Option.some.inj hn1).symm
      subst hn1c
      refine ⟨by simp [createElectricalNode], ?_, ?_⟩
      · intro hpot1
        rw [show (createElectricalNode eng.chosenPosition (resolvePolygonId attrs)
            (some "right") true st.nextNodeIndex).isPotential = true from rfl] at hpot1
        cases hpot1
      · intro _
        -- the second call again finds nothing shareable
        have hchar := (scanNodes_best_none_iff eng (resolvePolygonId attrs)
          st.electricalNodes 0).mp hscannone
        have hcond2 : ∀ n ∈ st1.electricalNodes, n.isPotential = true ∨
            (resolvePolygonId attrs ∉ n.properties ∧ eng.inBuffer n.position = false) := by
          intro n hn
          rw [hst1nodes] at hn
          rcases List.mem_append.mp hn with hx | hx
          · exact hchar n (List.mem_of_mem_filter hx)
          · rw [List.mem_singleton.mp hx]
            exact Or.inl rfl
        have hscan2 : scanNodes eng (resolvePolygonId attrs) st1.electricalNodes 0 none =
            .best none :=
          (scanNodes_best_none_iff eng (resolvePolygonId attrs) st1.electricalNodes 0).mpr
            hcond2
        have hfind2 : findNearbyConnectionNode eng (resolvePolygonId attrs)
            st1.electricalNodes = (none, st1.electricalNodes) := by
          unfold findNearbyConnectionNode
          rw [hscan2]
          rcases hquery with hq | hq
          · rw [hq]
          · rw [hq]
            rfl
        rw [hfind2] at h2
        dsimp only at h2
        have hr2 : some (createAndRenderPotentialNode eng (resolvePolygonId attrs)
            { st1 with electricalNodes := st1.electricalNodes }).1 = r2 :=
          congrArg Prod.fst h2
        have hn2val : (createAndRenderPotentialNode eng (resolvePolygonId attrs)
            { st1 with electricalNodes := st1.electricalNodes }).1 =
            createElectricalNode eng.chosenPosition (resolvePolygonId attrs)
              (some "right") true st1.nextNodeIndex := rfl
        refine ⟨createElectricalNode eng.chosenPosition (resolvePolygonId attrs)
          (some "right") true st1.nextNodeIndex, ?_, rfl, rfl, rfl, rfl, ?_⟩
        · rw [← hr2, hn2val]
        · rw [hst1next]
          intro hid
          rw [show (createElectricalNode eng.chosenPosition (resolvePolygonId attrs)
              (some "right") true (st.nextNodeIndex + 1)).id =
            NodeId.generated (st.nextNodeIndex + 1) true from rfl] at hid
          rw [show (createElectricalNode eng.chosenPosition (resolvePolygonId attrs)
              (some "right") true st.nextNodeIndex).id =
            NodeId.generated st.nextNodeIndex true from rfl] at hid
          injection hid with hk
          omega

/-- Witness for the repeated-assignment characterization at the empty
registry: the first call's returned potential node serves the parcel exactly
once. -/
theorem assign_twice_characterization_witness :
    (createElectricalNode { x := 3, y := 4 } (JSValue.num 7) (some "right") true
      0).properties.count (resolvePolygonId sampleParcelAttrs) = 1 := by
  have h := assign_twice_characterization Unit assignCexEngine sampleParcelAttrs [()]
    emptyElectricalState (by decide)
    (fun n hn => absurd hn (List.not_mem_nil n))
    (fun n hn => absurd hn (List.not_mem_nil n))
    (generateOrFindConnectionNode assignCexEngine sampleParcelAttrs [()]
      emptyElectricalState).1
    (generateOrFindConnectionNode assignCexEngine sampleParcelAttrs [()]
      emptyElectricalState).2
    (generateOrFindConnectionNode assignCexEngine sampleParcelAttrs [()]
      (generateOrFindConnectionNode assignCexEngine sampleParcelAttrs [()]
        emptyElectricalState).2).1
    (generateOrFindConnectionNode assignCexEngine sampleParcelAttrs [()]
      (generateOrFindConnectionNode assignCexEngine sampleParcelAttrs [()]
        emptyElectricalState).2).2
    rfl rfl
  exact (h.2 (createElectricalNode { x := 3, y := 4 } (JSValue.num 7) (some "right") true 0)
    (by decide)).1
